import Mathlib

/-!
Verification development for the reddit scraper microservice
(`app/manager.py`, `app/scraper.py`, `app/gcs_io.py`, `app/utils.py`,
`app/config.py`).

The code is shallowly embedded: the GCS bucket becomes an association
list from blob names to blob contents, where the content of a text blob
is modelled as its list of CSV lines (every object written by the code
is a whole number of newline-terminated lines, and GCS compose
concatenates byte streams, hence concatenates line lists).  Python dicts
become association lists, machine floats used for sleep durations become
rationals, and fallible operations (`KeyError` paths) return `Option`.
-/

namespace RedditScraper

/-! ### Association lists: the model of Python dicts

`updateA` mirrors `d[k] = v`: it replaces the first binding of the key
and otherwise appends, which matches insertion-ordered Python dicts. -/

def lookupA {β : Type} (m : List (String × β)) (k : String) : Option β :=
  (m.find? (fun e => e.1 = k)).map (·.2)

def updateA {β : Type} (m : List (String × β)) (k : String) (v : β) : List (String × β) :=
  match m with
  | [] => [(k, v)]
  | e :: rest => if e.1 = k then (k, v) :: rest else e :: updateA rest k v

theorem lookupA_updateA_self {β : Type} (m : List (String × β)) (k : String) (v : β) :
    lookupA (updateA m k v) k = some v := by
  induction m with
  | nil => simp [lookupA, updateA, List.find?]
  | cons e rest ih =>
    by_cases h : e.1 = k
    · simp [lookupA, updateA, h, List.find?]
    · simp only [updateA, h, if_false]
      simpa [lookupA, List.find?, h] using ih

theorem lookupA_updateA_ne {β : Type} (m : List (String × β)) (k q : String) (v : β)
    (h : q ≠ k) : lookupA (updateA m k v) q = lookupA m q := by
  have hkq : ¬ (k = q) := fun hh => h hh.symm
  induction m with
  | nil => simp [lookupA, updateA, List.find?, hkq]
  | cons e rest ih =>
    by_cases he : e.1 = k
    · have heq : ¬ (e.1 = q) := by rw [he]; exact hkq
      simp [lookupA, updateA, he, List.find?, hkq, heq]
    · by_cases hq : e.1 = q
      · simp only [updateA, he, if_false]
        simp [lookupA, List.find?, hq]
      · simp only [updateA, he, if_false]
        simpa [lookupA, List.find?, hq] using ih

/-! ### Decimal numerals

The blob names the code builds with Python f-strings embed decimal
numbers (compose-stage counters, retry-suffix counters).  To reason
about name collisions we need that `Nat.repr` is injective and never
produces a dash.  `digitsRec` is a structurally transparent version of
the core library digit printer, proved equal to it. -/

def digitsRec (n : Nat) : List Char :=
  if n < 10 then [Nat.digitChar n]
  else digitsRec (n / 10) ++ [Nat.digitChar (n % 10)]
termination_by n
decreasing_by
  exact Nat.div_lt_self (by omega) (by omega)

theorem digitsRec_of_lt (n : Nat) (h : n < 10) : digitsRec n = [Nat.digitChar n] := by
  rw [digitsRec]
  simp [h]

theorem digitsRec_of_ge (n : Nat) (h : ¬ n < 10) :
    digitsRec n = digitsRec (n / 10) ++ [Nat.digitChar (n % 10)] := by
  rw [digitsRec]
  simp [h]

theorem toDigitsCore_eq_digitsRec (f : Nat) :
    ∀ (n : Nat) (acc : List Char), n < f →
      Nat.toDigitsCore 10 f n acc = digitsRec n ++ acc := by
  induction f with
  | zero => intro n acc h; omega
  | succ f ih =>
    intro n acc h
    by_cases h10 : n < 10
    · have hdiv : n / 10 = 0 := Nat.div_eq_of_lt h10
      have hmod : n % 10 = n := Nat.mod_eq_of_lt h10
      simp [Nat.toDigitsCore, hdiv, hmod, digitsRec_of_lt n h10]
    · have hdiv : ¬ n / 10 = 0 := by
        intro hz
        have h1 := Nat.div_add_mod n 10
        have h2 : n % 10 < 10 := Nat.mod_lt n (by omega)
        omega
      have hlt : n / 10 < f := by
        have h1 : n / 10 < n := Nat.div_lt_self (by omega) (by omega)
        omega
      simp only [Nat.toDigitsCore, hdiv, if_false]
      rw [ih (n / 10) (Nat.digitChar (n % 10) :: acc) hlt, digitsRec_of_ge n h10]
      simp

theorem repr_data (n : Nat) : (Nat.repr n).data = digitsRec n := by
  show (Nat.toDigits 10 n).asString.data = digitsRec n
  rw [Nat.toDigits, toDigitsCore_eq_digitsRec (n + 1) n [] (by omega)]
  simp [List.asString]

theorem digitsRec_ne_nil (n : Nat) : digitsRec n ≠ [] := by
  by_cases h : n < 10
  · simp [digitsRec_of_lt n h]
  · simp [digitsRec_of_ge n h]

theorem digitChar_lt10_ne_dash : ∀ k < 10, Nat.digitChar k ≠ '-' := by decide

theorem digitChar_lt10_inj : ∀ a < 10, ∀ b < 10, Nat.digitChar a = Nat.digitChar b → a = b := by
  decide

theorem digitsRec_ne_dash (n : Nat) : ∀ c ∈ digitsRec n, c ≠ '-' := by
  induction n using Nat.strong_induction_on with
  | _ n ih =>
    by_cases h : n < 10
    · rw [digitsRec_of_lt n h]
      intro c hc
      simp at hc
      subst hc
      exact digitChar_lt10_ne_dash n h
    · rw [digitsRec_of_ge n h]
      intro c hc
      rcases List.mem_append.mp hc with hl | hr
      · exact ih (n / 10) (Nat.div_lt_self (by omega) (by omega)) c hl
      · simp at hr
        subst hr
        exact digitChar_lt10_ne_dash (n % 10) (Nat.mod_lt n (by omega))

theorem digitsRec_inj : ∀ m n : Nat, digitsRec m = digitsRec n → m = n := by
  intro m
  induction m using Nat.strong_induction_on with
  | _ m ih =>
    intro n h
    by_cases hm : m < 10 <;> by_cases hn : n < 10
    · rw [digitsRec_of_lt m hm, digitsRec_of_lt n hn] at h
      simp at h
      exact digitChar_lt10_inj m hm n hn h
    · exfalso
      apply digitsRec_ne_nil (n / 10)
      rw [digitsRec_of_lt m hm, digitsRec_of_ge n hn] at h
      have hlen := congrArg List.length h
      rw [List.length_append] at hlen
      simp only [List.length_cons, List.length_nil] at hlen
      exact List.length_eq_zero.mp (by omega)
    · exfalso
      apply digitsRec_ne_nil (m / 10)
      rw [digitsRec_of_ge m hm, digitsRec_of_lt n hn] at h
      have hlen := congrArg List.length h
      rw [List.length_append] at hlen
      simp only [List.length_cons, List.length_nil] at hlen
      exact List.length_eq_zero.mp (by omega)
    · rw [digitsRec_of_ge m hm, digitsRec_of_ge n hn] at h
      have hrev := congrArg List.reverse h
      simp at hrev
      obtain ⟨hc, htl⟩ := hrev
      have hdiv : m / 10 = n / 10 :=
        ih (m / 10) (Nat.div_lt_self (by omega) (by omega)) (n / 10) htl
      have hmod : m % 10 = n % 10 :=
        digitChar_lt10_inj _ (Nat.mod_lt m (by omega)) _ (Nat.mod_lt n (by omega)) hc
      omega

theorem nat_repr_inj {m n : Nat} (h : Nat.repr m = Nat.repr n) : m = n := by
  apply digitsRec_inj
  rw [← repr_data, ← repr_data, h]

/-- Splitting a character list at a dash: if neither left part contains a
dash, the decomposition of `l1 ++ dash :: r1` is unique. -/
theorem split_at_dash :
    ∀ (l1 l2 r1 r2 : List Char), (∀ c ∈ l1, c ≠ '-') → (∀ c ∈ l2, c ≠ '-') →
      l1 ++ '-' :: r1 = l2 ++ '-' :: r2 → l1 = l2 ∧ r1 = r2 := by
  intro l1
  induction l1 with
  | nil =>
    intro l2 r1 r2 _ h2 h
    cases l2 with
    | nil => simpa using h
    | cons b bs =>
      exfalso
      simp at h
      exact h2 b (by simp) h.1.symm
  | cons a as ih =>
    intro l2 r1 r2 h1 h2 h
    cases l2 with
    | nil =>
      exfalso
      simp at h
      exact h1 a (by simp) h.1
    | cons b bs =>
      simp at h
      obtain ⟨hab, htl⟩ := h
      have := ih bs r1 r2 (fun c hc => h1 c (by simp [hc])) (fun c hc => h2 c (by simp [hc])) htl
      exact ⟨by simp [hab, this.1], this.2⟩

/-! ### gcs_io.py — the object store and the compose engine

A `Store` maps blob names to contents; a text blob's content is its list
of CSV lines.  `uploadLines` models `upload_text` (overwriting: the new
binding shadows the old one), `compose` models the one-shot GCS compose
primitive (concatenation of the sources' contents into `dest`), and
`compose_many` models the staged algorithm with its 32-source fan-in.
The returned list of source lists is a ghost trace: one entry per call
to the underlying compose primitive. -/

abbrev Store := List (String × List String)

def lookupBlob (st : Store) (name : String) : Option (List String) :=
  lookupA st name

def contentOf (st : Store) (name : String) : List String :=
  (lookupBlob st name).getD []

def uploadLines (st : Store) (name : String) (lines : List String) : Store :=
  (name, lines) :: st

def gcsExists (st : Store) (name : String) : Bool :=
  (lookupBlob st name).isSome

def compose (st : Store) (sources : List String) (dest : String) : Store :=
  uploadLines st dest ((sources.map (contentOf st)).flatten)

/-- Temporary blob name used by one staged compose call:
`f"{tmp_prefix}/compose-s{stage}-{i//32}.csv"`. -/
def tmpName (tmpRoot : String) (stage j : Nat) : String :=
  tmpRoot ++ "/compose-s" ++ Nat.repr stage ++ "-" ++ Nat.repr j ++ ".csv"

/-- The 32-element groups `current[i : i + 32]` of the staging loop. -/
def chunks32 : List String → List (List String)
  | [] => []
  | x :: xs => ((x :: xs).take 32) :: chunks32 ((x :: xs).drop 32)
termination_by l => l.length
decreasing_by
  simp only [List.drop_succ_cons, List.length_drop, List.length_cons]
  omega

theorem chunks32_nil : chunks32 [] = [] := by rw [chunks32]

theorem chunks32_cons (x : String) (xs : List String) :
    chunks32 (x :: xs) = ((x :: xs).take 32) :: chunks32 ((x :: xs).drop 32) := by
  rw [chunks32]

theorem chunks32_flatten (l : List String) : (chunks32 l).flatten = l := by
  induction l using chunks32.induct with
  | case1 => simp [chunks32_nil]
  | case2 x xs ih =>
    rw [chunks32_cons, List.flatten_cons, ih, List.take_append_drop]

theorem chunks32_mem_length (l : List String) (c : List String) (hc : c ∈ chunks32 l) :
    c.length ≤ 32 := by
  induction l using chunks32.induct with
  | case1 => simp [chunks32_nil] at hc
  | case2 x xs ih =>
    rw [chunks32_cons] at hc
    rcases List.mem_cons.mp hc with h | h
    · subst h
      exact List.length_take_le 32 (x :: xs)
    · exact ih h

theorem chunks32_mem_mem (l : List String) (c : List String) (hc : c ∈ chunks32 l)
    (n : String) (hn : n ∈ c) : n ∈ l := by
  have := chunks32_flatten l
  rw [← this]
  exact List.mem_flatten.mpr ⟨c, hc, hn⟩

theorem chunks32_length_le (l : List String) : (chunks32 l).length ≤ l.length := by
  induction l using chunks32.induct with
  | case1 => simp [chunks32_nil]
  | case2 x xs ih =>
    rw [chunks32_cons]
    simp only [List.length_cons]
    have hd : ((x :: xs).drop 32).length = xs.length - 31 := by
      simp [List.length_drop]
    omega

theorem chunks32_length_lt (l : List String) (h : 32 < l.length) :
    (chunks32 l).length < l.length := by
  match l with
  | [] => simp at h
  | x :: xs =>
    rw [chunks32_cons]
    have h1 := chunks32_length_le ((x :: xs).drop 32)
    simp only [List.length_cons, List.length_drop] at *
    omega

/-- One staging round: compose each group into its numbered temporary,
left to right (the inner `for i in range(0, len(current), 32)`). -/
def composeStage (st : Store) (groups : List (List String)) (tmpRoot : String)
    (stage j : Nat) : Store :=
  match groups with
  | [] => st
  | g :: gs => composeStage (compose st g (tmpName tmpRoot stage j)) gs tmpRoot stage (j + 1)

/-- The `while len(current) > 32` loop followed by the final compose into
`dest`.  Returns the store and the ghost trace of per-call source lists. -/
def composeLoop (st : Store) (current : List String) (tmpRoot : String) (stage : Nat)
    (dest : String) : Store × List (List String) :=
  if current.length ≤ 32 then (compose st current dest, [current])
  else
    let groups := chunks32 current
    let st1 := composeStage st groups tmpRoot stage 0
    let outs := (List.range groups.length).map (tmpName tmpRoot stage)
    let r := composeLoop st1 outs tmpRoot (stage + 1) dest
    (r.1, groups ++ r.2)
termination_by current.length
decreasing_by
  simp only [List.length_map, List.length_range]
  exact chunks32_length_lt current (by omega)

/-- `compose_many(bkt, sources, dest, tmp_prefix)` from gcs_io.py. -/
def compose_many (st : Store) (sources : List String) (dest : String) (tmpRoot : String) :
    Store × List (List String) :=
  if sources.isEmpty then (uploadLines st dest [], [])
  else if sources.length ≤ 32 then (compose st sources dest, [sources])
  else composeLoop st sources tmpRoot 0 dest

theorem contentOf_uploadLines_self (st : Store) (name : String) (lines : List String) :
    contentOf (uploadLines st name lines) name = lines := by
  simp [contentOf, lookupBlob, uploadLines, lookupA, List.find?]

theorem contentOf_uploadLines_ne (st : Store) (name other : String) (lines : List String)
    (h : other ≠ name) : contentOf (uploadLines st name lines) other = contentOf st other := by
  have hh : ¬ (name = other) := fun e => h e.symm
  simp [contentOf, lookupBlob, uploadLines, lookupA, List.find?, hh]

theorem lookupBlob_uploadLines_self (st : Store) (name : String) (lines : List String) :
    lookupBlob (uploadLines st name lines) name = some lines := by
  simp [lookupBlob, uploadLines, lookupA, List.find?]

theorem contentOf_compose_dest (st : Store) (sources : List String) (dest : String) :
    contentOf (compose st sources dest) dest = (sources.map (contentOf st)).flatten :=
  contentOf_uploadLines_self _ _ _

theorem contentOf_compose_ne (st : Store) (sources : List String) (dest other : String)
    (h : other ≠ dest) : contentOf (compose st sources dest) other = contentOf st other :=
  contentOf_uploadLines_ne _ _ _ _ h

theorem dash_data : ("-" : String).data = ['-'] := rfl

theorem tmpName_data (p : String) (s j : Nat) :
    (tmpName p s j).data
      = (p ++ "/compose-s").data ++ (digitsRec s ++ '-' :: (digitsRec j ++ ".csv".data)) := by
  simp [tmpName, String.data_append, repr_data, dash_data, List.append_assoc]

theorem tmpName_has_root (p : String) (s j : Nat) :
    (p ++ "/compose-s").data <+: (tmpName p s j).data :=
  ⟨digitsRec s ++ '-' :: (digitsRec j ++ ".csv".data), (tmpName_data p s j).symm⟩

theorem tmpName_inj (p : String) (s j s2 j2 : Nat)
    (h : tmpName p s j = tmpName p s2 j2) : s = s2 ∧ j = j2 := by
  have hd := congrArg String.data h
  rw [tmpName_data, tmpName_data] at hd
  have hd2 := List.append_cancel_left hd
  have hsplit := split_at_dash (digitsRec s) (digitsRec s2) _ _
    (digitsRec_ne_dash s) (digitsRec_ne_dash s2) hd2
  refine ⟨digitsRec_inj _ _ hsplit.1, digitsRec_inj _ _ (List.append_cancel_right hsplit.2)⟩

theorem composeStage_contentOf_other (tmpRoot : String) (stage : Nat) :
    ∀ (groups : List (List String)) (st : Store) (j : Nat) (n : String),
      (∀ i, n ≠ tmpName tmpRoot stage (j + i)) →
      contentOf (composeStage st groups tmpRoot stage j) n = contentOf st n := by
  intro groups
  induction groups with
  | nil => intro st j n _; rfl
  | cons g gs ih =>
    intro st j n hn
    show contentOf (composeStage (compose st g (tmpName tmpRoot stage j)) gs tmpRoot stage (j + 1)) n
        = contentOf st n
    rw [ih _ (j + 1) n (fun i => by
      have := hn (i + 1)
      simpa [Nat.add_assoc, Nat.add_comm 1 i] using this)]
    exact contentOf_compose_ne _ _ _ _ (by simpa using hn 0)

theorem composeStage_outs (tmpRoot : String) (stage : Nat) :
    ∀ (groups : List (List String)) (st : Store) (j : Nat),
      (∀ g ∈ groups, ∀ n ∈ g, ∀ j2, n ≠ tmpName tmpRoot stage j2) →
      ((List.range groups.length).map
          (fun i => contentOf (composeStage st groups tmpRoot stage j)
            (tmpName tmpRoot stage (j + i))))
        = groups.map (fun g => (g.map (contentOf st)).flatten) := by
  intro groups
  induction groups with
  | nil => intro st j _; simp
  | cons g gs ih =>
    intro st j hfr
    rw [List.length_cons, List.range_succ_eq_map]
    rw [List.map_cons, List.map_cons, List.map_map]
    simp only [composeStage]
    congr 1
    · rw [composeStage_contentOf_other tmpRoot stage gs _ (j + 1) _ (fun i => by
        intro he
        have := (tmpName_inj _ _ _ _ _ he).2
        omega)]
      simpa using contentOf_compose_dest st g (tmpName tmpRoot stage j)
    · have step1 : (List.range gs.length).map
            ((fun i => contentOf
              (composeStage (compose st g (tmpName tmpRoot stage j)) gs tmpRoot stage (j + 1))
              (tmpName tmpRoot stage (j + i))) ∘ Nat.succ)
          = (List.range gs.length).map
            (fun i => contentOf
              (composeStage (compose st g (tmpName tmpRoot stage j)) gs tmpRoot stage (j + 1))
              (tmpName tmpRoot stage ((j + 1) + i))) := by
        apply List.map_congr_left
        intro i _
        simp only [Function.comp]
        have harg : j + Nat.succ i = (j + 1) + i := by omega
        rw [harg]
      rw [step1, ih _ (j + 1) (fun gg hgg n hn j2 => hfr gg (by simp [hgg]) n hn j2)]
      apply List.map_congr_left
      intro gg hgg
      congr 1
      apply List.map_congr_left
      intro n hn
      exact contentOf_compose_ne _ _ _ _ (hfr gg (by simp [hgg]) n hn j)

theorem flatten_map_flatten (L : List (List String)) (f : String → List String) :
    (L.map (fun g => (g.map f).flatten)).flatten = (L.flatten.map f).flatten := by
  induction L with
  | nil => rfl
  | cons g gs ih => simp [ih]

theorem composeLoop_spec_aux (tmpRoot dest : String) :
    ∀ (N : Nat) (current : List String), current.length ≤ N → ∀ (st : Store) (stage : Nat),
      (∀ n ∈ current, ∀ s2 j2, stage ≤ s2 → n ≠ tmpName tmpRoot s2 j2) →
      (∀ s2 j2, stage ≤ s2 → dest ≠ tmpName tmpRoot s2 j2) →
      contentOf (composeLoop st current tmpRoot stage dest).1 dest
          = (current.map (contentOf st)).flatten
        ∧ ∀ call ∈ (composeLoop st current tmpRoot stage dest).2, call.length ≤ 32 := by
  intro N
  induction N with
  | zero =>
    intro current hlen st stage _ _
    have h32 : current.length ≤ 32 := by omega
    rw [composeLoop, if_pos h32]
    exact ⟨contentOf_compose_dest st current dest, by
      intro call hc
      simp at hc
      subst hc
      omega⟩
  | succ N ih =>
    intro current hlen st stage hfr hdest
    by_cases h32 : current.length ≤ 32
    · rw [composeLoop, if_pos h32]
      exact ⟨contentOf_compose_dest st current dest, by
        intro call hc
        simp at hc
        subst hc
        omega⟩
    · rw [composeLoop, if_neg h32]
      simp only []
      set groups := chunks32 current with hgroups
      set st1 := composeStage st groups tmpRoot stage 0 with hst1
      set outs := (List.range groups.length).map (tmpName tmpRoot stage) with houts
      have hfr_groups : ∀ g ∈ groups, ∀ n ∈ g, ∀ j2, n ≠ tmpName tmpRoot stage j2 := by
        intro g hg n hn j2
        exact hfr n (chunks32_mem_mem current g hg n hn) stage j2 (Nat.le_refl stage)
      have houtlen : outs.length ≤ N := by
        rw [houts]
        simp only [List.length_map, List.length_range]
        have hlt := chunks32_length_lt current (by omega)
        rw [← hgroups] at hlt
        omega
      have hfr2 : ∀ n ∈ outs, ∀ s2 j2, stage + 1 ≤ s2 → n ≠ tmpName tmpRoot s2 j2 := by
        intro n hn s2 j2 hs2 he
        rw [houts] at hn
        rcases List.mem_map.mp hn with ⟨i, _, hi⟩
        subst he
        have := (tmpName_inj _ _ _ _ _ hi).1
        omega
      have hdest2 : ∀ s2 j2, stage + 1 ≤ s2 → dest ≠ tmpName tmpRoot s2 j2 :=
        fun s2 j2 hs2 => hdest s2 j2 (by omega)
      obtain ⟨hcont, hcalls⟩ := ih outs houtlen st1 (stage + 1) hfr2 hdest2
      constructor
      · show contentOf (composeLoop st1 outs tmpRoot (stage + 1) dest).1 dest
            = (current.map (contentOf st)).flatten
        rw [hcont]
        have houts_content : outs.map (contentOf st1)
            = groups.map (fun g => (g.map (contentOf st)).flatten) := by
          rw [houts, hst1, List.map_map]
          have := composeStage_outs tmpRoot stage groups st 0 hfr_groups
          rw [← this]
          apply List.map_congr_left
          intro i _
          simp [Function.comp]
        rw [houts_content, flatten_map_flatten, chunks32_flatten]
      · intro call hc
        rcases List.mem_append.mp hc with h | h
        · exact chunks32_mem_length current call h
        · exact hcalls call h

/-- C1: for every ordered source list, `compose_many` passes at most 32
sources to each call of the underlying compose primitive (the ghost
trace lists every call), and the final artifact's content is the
concatenation of all sources' contents in their original order; an
empty source list composes to an empty artifact.  The hypotheses say
the temporary-object prefix is distinguishing, i.e. no source and not
the destination lives under `tmpRoot ++ "/compose-s"`, which is what
the per-slug `_compose_tmp` prefix guarantees in `manager.py`. -/
theorem compose_many_correct (st : Store) (sources : List String) (dest tmpRoot : String)
    (hfr : ∀ s ∈ sources, ¬ ((tmpRoot ++ "/compose-s").data <+: s.data))
    (hdest : ¬ ((tmpRoot ++ "/compose-s").data <+: dest.data)) :
    contentOf (compose_many st sources dest tmpRoot).1 dest
        = (sources.map (contentOf st)).flatten
      ∧ ∀ call ∈ (compose_many st sources dest tmpRoot).2, call.length ≤ 32 := by
  by_cases hemp : sources.isEmpty
  · rw [compose_many, if_pos hemp]
    have hnil : sources = [] := List.isEmpty_iff.mp hemp
    subst hnil
    exact ⟨contentOf_uploadLines_self st dest [], by intro call hc; simp at hc⟩
  · by_cases h32 : sources.length ≤ 32
    · rw [compose_many, if_neg hemp, if_pos h32]
      exact ⟨contentOf_compose_dest st sources dest, by
        intro call hc
        simp at hc
        subst hc
        omega⟩
    · rw [compose_many, if_neg hemp, if_neg h32]
      apply composeLoop_spec_aux tmpRoot dest sources.length sources (Nat.le_refl _) st 0
      · intro n hn s2 j2 _ he
        exact hfr n hn (he ▸ tmpName_has_root tmpRoot s2 j2)
      · intro s2 j2 _ he
        exact hdest (he ▸ tmpName_has_root tmpRoot s2 j2)

theorem gcsExists_uploadLines_self (st : Store) (name : String) (lines : List String) :
    gcsExists (uploadLines st name lines) name = true := by
  rw [gcsExists, lookupBlob_uploadLines_self]
  rfl

theorem composeLoop_exists_dest (tmpRoot dest : String) :
    ∀ (N : Nat) (current : List String), current.length ≤ N → ∀ (st : Store) (stage : Nat),
      gcsExists (composeLoop st current tmpRoot stage dest).1 dest = true := by
  intro N
  induction N with
  | zero =>
    intro current hlen st stage
    rw [composeLoop, if_pos (by omega : current.length ≤ 32)]
    exact gcsExists_uploadLines_self _ _ _
  | succ N ih =>
    intro current hlen st stage
    by_cases h32 : current.length ≤ 32
    · rw [composeLoop, if_pos h32]
      exact gcsExists_uploadLines_self _ _ _
    · rw [composeLoop, if_neg h32]
      simp only []
      apply ih
      simp only [List.length_map, List.length_range]
      have hlt := chunks32_length_lt current (by omega)
      omega

theorem gcsExists_compose_many_dest (st : Store) (sources : List String)
    (dest tmpRoot : String) :
    gcsExists (compose_many st sources dest tmpRoot).1 dest = true := by
  by_cases hemp : sources.isEmpty
  · rw [compose_many, if_pos hemp]
    exact gcsExists_uploadLines_self _ _ _
  · by_cases h32 : sources.length ≤ 32
    · rw [compose_many, if_neg hemp, if_pos h32]
      exact gcsExists_uploadLines_self _ _ _
    · rw [compose_many, if_neg hemp, if_neg h32]
      exact composeLoop_exists_dest tmpRoot dest sources.length sources (Nat.le_refl _) st 0

/-! ### config.py -/

def GCP_BUCKET : String := "nba-datalake"

/-- `RESULTS_PREFIX` in config.py. -/
def RESULTS_ROOT : String := "reddit_scrapes"

def CHUNK_ROWS : Nat := 200

def RATELIMIT_SECONDS : Nat := 600

def MAX_RETRIES : Nat := 6

def MAX_BACKOFF_SECONDS : ℚ := 600

/-! ### utils.py — `slugify`

`re.sub(r"[^A-Za-z0-9]+", "-", name.strip()).strip("-").lower()`, with
the fallback `"player"` for an empty result.  The regex substitution is
implemented directly: every maximal run of non-alphanumeric characters
becomes one dash. -/

def isAsciiAlnum (c : Char) : Bool :=
  ('A' ≤ c && c ≤ 'Z') || ('a' ≤ c && c ≤ 'z') || ('0' ≤ c && c ≤ '9')

def collapseRunsAux (inRun : Bool) : List Char → List Char
  | [] => []
  | c :: cs =>
    if isAsciiAlnum c then c :: collapseRunsAux false cs
    else if inRun then collapseRunsAux true cs
    else '-' :: collapseRunsAux true cs

/-- Replace every maximal run of non-alphanumeric characters by a
single dash (the flag records being inside such a run). -/
def collapseRuns (l : List Char) : List Char :=
  collapseRunsAux false l

def stripBoth (p : Char → Bool) (l : List Char) : List Char :=
  ((l.dropWhile p).reverse.dropWhile p).reverse

def pyStripWs (s : String) : String :=
  ⟨stripBoth Char.isWhitespace s.data⟩

def slugify (name : String) : String :=
  let s : String :=
    ⟨(stripBoth (fun c => c = '-') (collapseRuns (pyStripWs name).data)).map Char.toLower⟩
  if s = "" then "player" else s

/-! ### Slug collision resolution (manager.py `start`)

The source resolves collisions with
`slug = base; i = 2; while slug in used: slug = f"{base}-{i}"; i += 1`.
The while loop is modelled with explicit fuel `used.length + 1`; the
fuel is provably sufficient because the candidate names are pairwise
distinct (`Nat.repr` is injective), so the fuel-exhausted branch is
unreachable (`findSlug_not_mem`). -/

def candSlug (base : String) (i : Nat) : String :=
  base ++ "-" ++ Nat.repr i

def findSlugAux (used : List String) (base : String) : Nat → Nat → String
  | 0, i => candSlug base i
  | fuel + 1, i =>
    if candSlug base i ∈ used then findSlugAux used base fuel (i + 1) else candSlug base i

def findSlug (used : List String) (base : String) : String :=
  if base ∈ used then findSlugAux used base (used.length + 1) 2 else base

theorem candSlug_inj (base : String) {i j : Nat} (h : candSlug base i = candSlug base j) :
    i = j := by
  have hd := congrArg String.data h
  simp only [candSlug, String.data_append, repr_data, dash_data, List.append_assoc] at hd
  have hd2 := List.append_cancel_left hd
  simp only [List.singleton_append, List.cons.injEq, true_and] at hd2
  exact digitsRec_inj _ _ hd2

open Classical in
theorem findSlugAux_not_mem (used : List String) (base : String) :
    ∀ (fuel i : Nat),
      ((used.toFinset.filter (fun s => ∃ j, i ≤ j ∧ s = candSlug base j)).card < fuel) →
      findSlugAux used base fuel i ∉ used := by
  intro fuel
  induction fuel with
  | zero => intro i hcard; omega
  | succ fuel ih =>
    intro i hcard
    rw [findSlugAux]
    by_cases hmem : candSlug base i ∈ used
    · rw [if_pos hmem]
      apply ih (i + 1)
      have hin : candSlug base i
          ∈ used.toFinset.filter (fun s => ∃ j, i ≤ j ∧ s = candSlug base j) :=
        Finset.mem_filter.mpr ⟨List.mem_toFinset.mpr hmem, ⟨i, Nat.le_refl i, rfl⟩⟩
      have hsub : used.toFinset.filter (fun s => ∃ j, i + 1 ≤ j ∧ s = candSlug base j)
          ⊆ (used.toFinset.filter (fun s => ∃ j, i ≤ j ∧ s = candSlug base j)).erase
              (candSlug base i) := by
        intro s hs
        obtain ⟨hsm, j, hj, hsj⟩ := Finset.mem_filter.mp hs
        refine Finset.mem_erase.mpr ⟨?_, Finset.mem_filter.mpr ⟨hsm, ⟨j, by omega, hsj⟩⟩⟩
        intro he
        have : i = j := candSlug_inj base (by rw [← he, hsj])
        omega
      have hcard2 := Finset.card_le_card hsub
      rw [Finset.card_erase_of_mem hin] at hcard2
      have hpos : 0 < (used.toFinset.filter (fun s => ∃ j, i ≤ j ∧ s = candSlug base j)).card :=
        Finset.card_pos.mpr ⟨_, hin⟩
      omega
    · rw [if_neg hmem]
      exact hmem

open Classical in
theorem findSlug_not_mem (used : List String) (base : String) :
    findSlug used base ∉ used := by
  rw [findSlug]
  by_cases h : base ∈ used
  · rw [if_pos h]
    apply findSlugAux_not_mem
    have h1 := Finset.card_filter_le used.toFinset (fun s => ∃ j, 2 ≤ j ∧ s = candSlug base j)
    have h2 := used.toFinset_card_le
    omega
  · rw [if_neg h]
    exact h

theorem findSlugAux_shape (used : List String) (base : String) :
    ∀ (fuel i : Nat), 2 ≤ i →
      ∃ k, 2 ≤ k ∧ findSlugAux used base fuel i = candSlug base k := by
  intro fuel
  induction fuel with
  | zero => intro i hi; exact ⟨i, hi, rfl⟩
  | succ fuel ih =>
    intro i hi
    rw [findSlugAux]
    by_cases hmem : candSlug base i ∈ used
    · rw [if_pos hmem]
      exact ih (i + 1) (by omega)
    · rw [if_neg hmem]
      exact ⟨i, hi, rfl⟩

theorem findSlug_shape (used : List String) (base : String) :
    findSlug used base = base
      ∨ ∃ k, 2 ≤ k ∧ findSlug used base = candSlug base k := by
  rw [findSlug]
  by_cases h : base ∈ used
  · rw [if_pos h]
    exact Or.inr (findSlugAux_shape used base (used.length + 1) 2 (Nat.le_refl 2))
  · rw [if_neg h]
    exact Or.inl rfl

/-! ### manager.py — CSV schema and rows

`RawRow` is the dict built by the scraper loop and handed to
`write_row`; scalar cells are modelled at their CSV string level.  The
two URL fields model the value found under the misspelled key
`"submision_url"` (if present) and under `"submission_url"`.
`write_row` normalises the dict into an `OutRow` whose field order is
the fixed `CSV_FIELDS` column order. -/

def CSV_FIELDS : List String :=
  ["subreddit", "submission_id", "title", "submission_url", "submission_text",
   "score", "upvote_ratio", "num_comments", "created_utc", "search_player",
   "comments_json"]

/-- `header_line = ",".join(CSV_FIELDS) + "\n"`: one CSV line. -/
def headerLine : String := String.intercalate "," CSV_FIELDS

structure RawRow where
  subreddit : String
  submission_id : String
  title : String
  submision_url : Option String
  submission_url : Option String
  submission_text : String
  score : String
  upvote_ratio_cell : String
  num_comments : String
  created_utc : String
  comments : List String
  search_player : String
deriving DecidableEq, Repr

structure OutRow where
  subreddit : String
  submission_id : String
  title : String
  submission_url : String
  submission_text : String
  score : String
  upvote_ratio_cell : String
  num_comments : String
  created_utc : String
  search_player : String
  comments_json : String
deriving DecidableEq, Repr

/-- `json.dumps(list_of_strings)` (string escaping elided). -/
def jsonDumpsList (l : List String) : String :=
  "[" ++ String.intercalate ", " (l.map (fun s => "\"" ++ s ++ "\"")) ++ "]"

/-- The key-fixing done at the top of `write_row`:
`out["submission_url"] = out.pop("submision_url", out.get("submission_url", ""))`
and `out["comments_json"] = json.dumps(out.pop("comments", []))`. -/
def normalizeRow (r : RawRow) : OutRow :=
  { subreddit := r.subreddit
    submission_id := r.submission_id
    title := r.title
    submission_url := r.submision_url.getD (r.submission_url.getD "")
    submission_text := r.submission_text
    score := r.score
    upvote_ratio_cell := r.upvote_ratio_cell
    num_comments := r.num_comments
    created_utc := r.created_utc
    search_player := r.search_player
    comments_json := jsonDumpsList r.comments }

/-- Minimal-quoting CSV cell, as produced by `csv.DictWriter`. -/
def csvQuote (s : String) : String :=
  if s.contains ',' || s.contains '"' || s.contains '\n' || s.contains '\r'
  then "\"" ++ s.replace "\"" "\"\"" ++ "\""
  else s

/-- One CSV line of a part object, fields in `CSV_FIELDS` order. -/
def serializeOutRow (r : OutRow) : String :=
  String.intercalate ","
    ([r.subreddit, r.submission_id, r.title, r.submission_url, r.submission_text,
      r.score, r.upvote_ratio_cell, r.num_comments, r.created_utc, r.search_player,
      r.comments_json].map csvQuote)

/-- `f"part-{n:05d}"` zero padding. -/
def pad5 (n : Nat) : String :=
  String.mk (List.replicate (5 - (Nat.repr n).length) '0') ++ Nat.repr n

inductive Status where
  | idle | running | paused | cancelling | cancelled | finished | error
deriving DecidableEq, Repr

/-- The mutable state of the `ScrapeManager` singleton plus the GCS
bucket it writes to.  `updatedCount` is a logical clock standing in for
the wall-clock `updated_at` (`touch` increments it). -/
structure ScrapeManager where
  status : Status
  message : String
  cancelRequested : Bool
  total_units : Nat
  completed_units : Nat
  current_player_index : Nat
  updatedCount : Nat
  players : List String
  subreddits : List String
  search_limit : Option Nat
  time_filter : String
  sort : String
  job_id : Option String
  jobRoot : Option String
  slug_map : List (String × String)
  buffers : List (String × List OutRow)
  part_counts : List (String × Nat)
  store : Store
deriving DecidableEq, Repr

/-- `ScrapeManager.__init__`: the state before any job (the bucket is
taken as initially empty). -/
def initialManager : ScrapeManager :=
  { status := .idle
    message := ""
    cancelRequested := false
    total_units := 0
    completed_units := 0
    current_player_index := 0
    updatedCount := 0
    players := []
    subreddits := ["nbadiscussion"]
    search_limit := some 10
    time_filter := "year"
    sort := "new"
    job_id := none
    jobRoot := none
    slug_map := []
    buffers := []
    part_counts := []
    store := [] }

def ScrapeManager.touch (st : ScrapeManager) : ScrapeManager :=
  { st with updatedCount := st.updatedCount + 1 }

def ScrapeManager.is_running (st : ScrapeManager) : Bool :=
  st.status = .running || st.status = .paused || st.status = .cancelling

/-- Python renders `None` into f-strings as the text `"None"`; blob-name
construction goes through this when `job_prefix` is still unset. -/
def optStr : Option String → String
  | some s => s
  | none => "None"

/-- Deduplicate keeping first occurrences (the `seen` loop in `start`). -/
def dedupKeepOrder (seen : List String) : List String → List String
  | [] => []
  | s :: rest =>
    if s ∈ seen then dedupKeepOrder seen rest else s :: dedupKeepOrder (s :: seen) rest

/-- The accumulator of `start`: `slug_map`, `used`, `buffers`,
`part_counts` built per player. -/
structure SlugInit where
  slugMap : List (String × String)
  used : List String
  buffers : List (String × List OutRow)
  partCounts : List (String × Nat)

def assignSlugs : List String → SlugInit → SlugInit
  | [], acc => acc
  | p :: ps, acc =>
    let slug := findSlug acc.used (slugify p)
    assignSlugs ps
      { slugMap := updateA acc.slugMap p slug
        used := slug :: acc.used
        buffers := updateA acc.buffers slug []
        partCounts := updateA acc.partCounts slug 0 }

/-- The per-slug header objects written once at `start`
(`if not gcs_exists(...): upload_text(...)`). -/
def writeHeaders (store : Store) (root : String) : List String → Store
  | [] => store
  | slug :: rest =>
    let hb := root ++ slug ++ "/header.csv"
    let store1 := if gcsExists store hb then store else uploadLines store hb [headerLine]
    writeHeaders store1 root rest

structure StartParams where
  players : List String
  subreddits : List String
  search_limit : Option Nat
  time_filter : String
  sort : String
deriving DecidableEq, Repr

/-- `ScrapeManager.start`.  The job id (wall-clock derived in the
source) is a parameter.  The result pairs the post-call state with the
raised error, if any; the busy guard runs before any mutation, so on
`RuntimeError` the state is returned unchanged. -/
def ScrapeManager.start (st : ScrapeManager) (p : StartParams) (jobId : String) :
    ScrapeManager × Option String :=
  if st.is_running then (st, some "A job is already running.")
  else
    let subs := dedupKeepOrder []
      (if p.subreddits.isEmpty then ["nbadiscussion"] else p.subreddits)
    let root := RESULTS_ROOT ++ "/" ++ jobId ++ "/"
    let ini := assignSlugs p.players ⟨[], [], [], []⟩
    ({ st with
        status := .running
        message := "Scrape started"
        cancelRequested := false
        players := p.players
        subreddits := subs
        search_limit := p.search_limit
        time_filter := p.time_filter
        sort := p.sort
        total_units := p.players.length * subs.length
        completed_units := 0
        current_player_index := 0
        updatedCount := st.updatedCount + 1
        job_id := some jobId
        jobRoot := some root
        slug_map := ini.slugMap
        buffers := ini.buffers
        part_counts := ini.partCounts
        store := writeHeaders st.store root ini.used }, none)

def ScrapeManager.set_total (st : ScrapeManager) (n : Nat) : ScrapeManager :=
  ({ st with total_units := n }).touch

/-- `_flush_chunk`: serialize the buffered rows of `slug` as the next
numbered part object and clear the buffer; no-op on an empty buffer.
`none` models the `KeyError` on an absent dict key. -/
def ScrapeManager.flushChunk (st : ScrapeManager) (slug : String) : Option ScrapeManager :=
  match lookupA st.buffers slug with
  | none => none
  | some [] => some st
  | some buf =>
    match lookupA st.part_counts slug with
    | none => none
    | some n =>
      let payload := buf.map serializeOutRow
      let n1 := n + 1
      let blob := optStr st.jobRoot ++ slug ++ "/part-" ++ pad5 n1 ++ ".csv"
      some (({ st with
        part_counts := updateA st.part_counts slug n1
        store := uploadLines st.store blob payload
        buffers := updateA st.buffers slug [] }).touch)

/-- `write_row`: buffer the normalised row under the player's slug and
flush once the buffer reaches `CHUNK_ROWS`. -/
def ScrapeManager.write_row (st : ScrapeManager) (player : String) (row : RawRow) :
    Option ScrapeManager :=
  match lookupA st.slug_map player with
  | none => none
  | some slug =>
    match lookupA st.buffers slug with
    | none => none
    | some buf =>
      let buf1 := buf ++ [normalizeRow row]
      let st1 := { st with buffers := updateA st.buffers slug buf1 }
      if CHUNK_ROWS ≤ buf1.length then st1.flushChunk slug else some st1

/-- `compose_final_if_needed(slug)`: idempotent finalisation returning
the final blob name. -/
def ScrapeManager.compose_final_if_needed (st : ScrapeManager) (slug : String) :
    Option (ScrapeManager × String) :=
  let root := optStr st.jobRoot
  let finalBlob := root ++ slug ++ ".csv"
  if gcsExists st.store finalBlob then some (st, finalBlob)
  else
    match st.flushChunk slug with
    | none => none
    | some st1 =>
      let n := (lookupA st1.part_counts slug).getD 0
      let sources := (root ++ slug ++ "/header.csv") ::
        ((List.range n).map (fun i => root ++ slug ++ "/part-" ++ pad5 (i + 1) ++ ".csv"))
      some ({ st1 with
        store := (compose_many st1.store sources finalBlob (root ++ slug ++ "/_compose_tmp")).1 },
        finalBlob)

def ScrapeManager.increment_progress (st : ScrapeManager) : ScrapeManager :=
  let c := st.completed_units + 1
  ({ st with
      completed_units := c
      message := "Completed " ++ Nat.repr c ++ "/" ++ Nat.repr st.total_units }).touch

def ScrapeManager.mark_finished (st : ScrapeManager) : ScrapeManager :=
  (if st.status = .cancelled ∨ st.status = .error then st
   else { st with status := .finished, message := "Finished" }).touch

def ScrapeManager.pause (st : ScrapeManager) : ScrapeManager × Option String :=
  if st.status ≠ .running then (st, some "Job is not running.")
  else (({ st with status := .paused, message := "Paused" }).touch, none)

def ScrapeManager.resume (st : ScrapeManager) : ScrapeManager × Option String :=
  if st.status ≠ .paused then (st, some "Job is not paused.")
  else (({ st with status := .running, message := "Resumed" }).touch, none)

def ScrapeManager.cancel (st : ScrapeManager) : ScrapeManager × Option String :=
  if st.status = .running ∨ st.status = .paused then
    (({ st with
        cancelRequested := true
        status := .cancelling
        message := "Cancelling..." }).touch, none)
  else (st, some "No running job to cancel.")

inductive PollOutcome where
  | cancelledNow | proceed | keepWaiting
deriving DecidableEq, Repr

/-- One iteration of the `wait_if_paused_or_cancelled` polling loop:
observe the cancel flag (transitioning to `cancelled` and answering
`True`), otherwise keep waiting while paused, otherwise proceed. -/
def ScrapeManager.pollStep (st : ScrapeManager) : ScrapeManager × PollOutcome :=
  if st.cancelRequested then
    (({ st with status := .cancelled, message := "Cancelled" }).touch, .cancelledNow)
  else if st.status = .paused then (st, .keepWaiting)
  else (st, .proceed)

/-! ### scraper.py — backoff policy

An upstream search attempt either completes (yielding its items) or
fails after yielding a prefix of items.  The failure variants mirror
the exception classes caught by `_search_with_backoff`; `jitter` is the
`random.random()` draw of that handler, `retryAfterHdr` the parsed
`retry-after` header (`None` when absent or unparsable), and
`parsedWait` the result of `_parse_wait_seconds_from_msg(str(e))`. -/

inductive UpFailure where
  | tooMany (retryAfterHdr : Option Int) (jitter : ℚ)
  | httpResp (statusCode : Option Nat) (jitter : ℚ)
  | network (jitter : ℚ)
  | redditApi (parsedWait : Option Nat)
deriving DecidableEq, Repr

/-- One upstream try: the submissions yielded before the outcome, and
the outcome (`none` = the search generator finished normally). -/
structure Attempt where
  yielded : List RawRow
  outcome : Option UpFailure
deriving DecidableEq, Repr

/-- `secs = max(0.0, min(seconds, MAX_BACKOFF_SECONDS))`. -/
def sleepClamp (seconds : ℚ) : ℚ :=
  max 0 (min seconds MAX_BACKOFF_SECONDS)

/-- `_sleep_with_status`: clamp, update the status message when actually
sleeping, and report the slept duration. -/
def sleepWithStatus (st : ScrapeManager) (seconds : ℚ) (reason : String) :
    ScrapeManager × ℚ :=
  let secs := sleepClamp seconds
  (if 0 < secs then
    ({ st with message := reason ++ ": sleeping ~" ++ Nat.repr secs.floor.toNat ++ "s" }).touch
   else st, secs)

/-- `f"{status}"` for the skip message (`status` is a number there). -/
def statusStr : Option Nat → String
  | some s => Nat.repr s
  | none => "None"

/-- `f"HTTP {status or 'error'}"` tail. -/
def statusOrError : Option Nat → String
  | some s => if s = 0 then "error" else Nat.repr s
  | none => "error"

inductive HandlerAction where
  | skip (msg : String)
  | raiseNow (f : UpFailure)
  | sleepRetry (seconds : ℚ) (reason : String)
deriving DecidableEq, Repr

/-- The four `except` handlers of `_search_with_backoff`, returning what
the handler does before control falls through to the attempt counter. -/
def handleFailure (f : UpFailure) (attempt : Nat) (subredditName : String) : HandlerAction :=
  match f with
  | .tooMany hdr j =>
    let retryAfter : ℚ :=
      match hdr with
      | some v => (v : ℚ)
      | none => min MAX_BACKOFF_SECONDS ((2 ^ attempt : ℚ) + j)
    .sleepRetry (retryAfter + 1) "429 Too Many Requests"
  | .httpResp status j =>
    if status = some 403 ∨ status = some 404 ∨ status = some 451 then
      .skip ("Skipping r/" ++ subredditName ++ " (HTTP " ++ statusStr status ++ ")")
    else
      .sleepRetry (min MAX_BACKOFF_SECONDS ((2 ^ attempt : ℚ) + j))
        ("HTTP " ++ statusOrError status)
  | .network j =>
    .sleepRetry (min MAX_BACKOFF_SECONDS ((2 ^ attempt : ℚ) + j)) "Network error"
  | .redditApi w =>
    let wait := w.getD 0
    if wait ≠ 0 ∧ (wait : ℚ) ≤ MAX_BACKOFF_SECONDS then
      .sleepRetry ((wait : ℚ) + 1) "API ratelimit"
    else
      .raiseNow f

/-- What escalates out of `_search_with_backoff`.  The bare `raise`
after `if attempt >= MAX_RETRIES` sits outside every `except` block, so
CPython raises `RuntimeError("No active exception to re-raise")` there
instead of the last upstream failure. -/
inductive RaisedExc where
  | fromUpstream (f : UpFailure)
  | noActiveException
deriving DecidableEq, Repr

inductive SearchExit where
  | completed
  | skippedUnit
  | raised (e : RaisedExc)
deriving DecidableEq, Repr

/-- Result of driving `_search_with_backoff` against a script of
attempt outcomes: all yielded submissions in order, the ghost list of
actually slept (clamped) durations, the exit, the final value of the
attempt counter, and the manager state (message updates). -/
structure SearchRun where
  items : List RawRow
  sleeps : List ℚ
  exit : SearchExit
  attempts : Nat
  stx : ScrapeManager
deriving DecidableEq, Repr

/-- `_search_with_backoff` over a script of upstream tries.  An
exhausted script stands for a next try that succeeds with no items. -/
def searchWithBackoff (subredditName : String) (st : ScrapeManager) :
    List Attempt → Nat → SearchRun
  | [], attempt => ⟨[], [], .completed, attempt, st⟩
  | a :: rest, attempt =>
    match a.outcome with
    | none => ⟨a.yielded, [], .completed, attempt, st⟩
    | some f =>
      match handleFailure f attempt subredditName with
      | .skip msg => ⟨a.yielded, [], .skippedUnit, attempt, ({ st with message := msg }).touch⟩
      | .raiseNow e => ⟨a.yielded, [], .raised (.fromUpstream e), attempt, st⟩
      | .sleepRetry seconds reason =>
        let p := sleepWithStatus st seconds reason
        let attempt1 := attempt + 1
        if MAX_RETRIES ≤ attempt1 then
          ⟨a.yielded, [p.2], .raised .noActiveException, attempt1, p.1⟩
        else
          let r := searchWithBackoff subredditName p.1 rest attempt1
          ⟨a.yielded ++ r.items, p.2 :: r.sleeps, r.exit, r.attempts, r.stx⟩

/-! ### scraper.py — `scrape_players_async`

The unit loop, driven by two scripts: `scripts` holds one
attempt-script per (player, subreddit) unit in visiting order, and
`ctrl` holds the successive answers of `wait_if_paused_or_cancelled`
(one Bool per checkpoint; `true` = cancel observed; an exhausted script
answers `false`).  Pause waiting is elided: the call returns only once
the job is unpaused or cancelled.  The `_worker` wrapper behaviour is
included: an exception escaping the loop sets the job status to
`error` with the captured message. -/

def checkpoint : List Bool → Bool × List Bool
  | [] => (false, [])
  | b :: rest => (b, rest)

/-- The `wait_if_paused_or_cancelled` cancel branch. -/
def cancelObserved (st : ScrapeManager) : ScrapeManager :=
  ({ st with status := .cancelled, message := "Cancelled" }).touch

def excMsg : RaisedExc → String
  | .fromUpstream _ => "upstream failure"
  | .noActiveException => "No active exception to re-raise"

/-- Per-item half of the unit body: re-check cancellation, then hand the
row (with `search_player` set) to `write_row`.  A `KeyError` from
`write_row` escapes to `_worker` and turns into job `error`. -/
def writeItems (player : String) :
    ScrapeManager → List RawRow → List Bool → ScrapeManager × List Bool × Bool
  | st, [], ctrl => (st, ctrl, false)
  | st, r :: rs, ctrl =>
    let c := checkpoint ctrl
    if c.1 then (cancelObserved st, c.2, true)
    else
      match st.write_row player { r with search_player := player } with
      | none => ({ st with status := .error, message := "Error: KeyError" }, c.2, true)
      | some st1 => writeItems player st1 rs c.2

structure RunAcc where
  st : ScrapeManager
  scripts : List (List Attempt)
  ctrl : List Bool
  trace : List ScrapeManager
  stopped : Bool
deriving Repr

/-- One (player, subreddit) unit of the loop body. -/
def runUnit (player sub : String) (pi : Nat) (acc : RunAcc) : RunAcc :=
  let script := acc.scripts.headD []
  let scripts1 := acc.scripts.tail
  let c := checkpoint acc.ctrl
  if c.1 then { acc with st := cancelObserved acc.st, scripts := scripts1, ctrl := c.2, stopped := true }
  else
    let st1 := ({ acc.st with
      current_player_index := pi
      message := "Searching " ++ player ++ " in r/" ++ sub }).touch
    let sr := searchWithBackoff sub st1 script 0
    let w := writeItems player sr.stx sr.items c.2
    if w.2.2 then { acc with st := w.1, scripts := scripts1, ctrl := w.2.1, stopped := true }
    else
      match sr.exit with
      | .raised e =>
        { acc with
          st := { w.1 with status := .error, message := "Error: " ++ excMsg e }
          scripts := scripts1
          ctrl := w.2.1
          stopped := true }
      | _ =>
        { acc with
          st := w.1.increment_progress
          scripts := scripts1
          ctrl := w.2.1
          trace := acc.trace ++ [w.1.increment_progress]
          stopped := false }

def runSubs (player : String) (pi : Nat) : List String → RunAcc → RunAcc
  | [], acc => acc
  | sub :: rest, acc =>
    let acc1 := runUnit player sub pi acc
    if acc1.stopped then acc1 else runSubs player pi rest acc1

def runPlayers : List String → Nat → List String → RunAcc → RunAcc
  | [], _, _, acc => acc
  | p :: ps, pi, subs, acc =>
    let acc1 := runSubs p pi subs acc
    if acc1.stopped then acc1 else runPlayers ps (pi + 1) subs acc1

/-- `scrape_players_async` as launched by `_worker` (no resume cursor),
including the final `mark_finished` and the `_worker` error capture
already folded into `runUnit`. -/
def scrape_players_async (st : ScrapeManager) (scripts : List (List Attempt))
    (ctrl : List Bool) : RunAcc :=
  let st0 := st.set_total (st.players.length * st.subreddits.length)
  let r := runPlayers st.players 0 st.subreddits ⟨st0, scripts, ctrl, [], false⟩
  if r.stopped then r else { r with st := r.st.mark_finished }

/-! ### Frame lemmas: which fields each operation can touch -/

theorem flushChunk_frame (st st2 : ScrapeManager) (slug : String)
    (h : st.flushChunk slug = some st2) :
    st2.status = st.status ∧ st2.message = st.message
      ∧ st2.cancelRequested = st.cancelRequested
      ∧ st2.total_units = st.total_units ∧ st2.completed_units = st.completed_units
      ∧ st2.players = st.players ∧ st2.subreddits = st.subreddits
      ∧ st2.slug_map = st.slug_map ∧ st2.jobRoot = st.jobRoot := by
  rw [ScrapeManager.flushChunk] at h
  split at h
  · cases h
  · cases h
    exact ⟨rfl, rfl, rfl, rfl, rfl, rfl, rfl, rfl, rfl⟩
  · split at h
    · cases h
    · cases h
      exact ⟨rfl, rfl, rfl, rfl, rfl, rfl, rfl, rfl, rfl⟩

theorem write_row_frame (st st2 : ScrapeManager) (player : String) (row : RawRow)
    (h : st.write_row player row = some st2) :
    st2.status = st.status ∧ st2.message = st.message
      ∧ st2.cancelRequested = st.cancelRequested
      ∧ st2.total_units = st.total_units ∧ st2.completed_units = st.completed_units
      ∧ st2.players = st.players ∧ st2.subreddits = st.subreddits
      ∧ st2.slug_map = st.slug_map ∧ st2.jobRoot = st.jobRoot := by
  rw [ScrapeManager.write_row] at h
  split at h
  · cases h
  · split at h
    · cases h
    · simp only [] at h
      split at h
      · have hf := flushChunk_frame _ _ _ h
        exact hf
      · cases h
        exact ⟨rfl, rfl, rfl, rfl, rfl, rfl, rfl, rfl, rfl⟩

theorem sleepWithStatus_frame (st : ScrapeManager) (seconds : ℚ) (reason : String) :
    (sleepWithStatus st seconds reason).1.status = st.status
      ∧ (sleepWithStatus st seconds reason).1.cancelRequested = st.cancelRequested
      ∧ (sleepWithStatus st seconds reason).1.total_units = st.total_units
      ∧ (sleepWithStatus st seconds reason).1.completed_units = st.completed_units
      ∧ (sleepWithStatus st seconds reason).1.players = st.players
      ∧ (sleepWithStatus st seconds reason).1.subreddits = st.subreddits
      ∧ (sleepWithStatus st seconds reason).1.slug_map = st.slug_map
      ∧ (sleepWithStatus st seconds reason).1.buffers = st.buffers
      ∧ (sleepWithStatus st seconds reason).1.part_counts = st.part_counts
      ∧ (sleepWithStatus st seconds reason).1.store = st.store
      ∧ (sleepWithStatus st seconds reason).1.jobRoot = st.jobRoot := by
  rw [sleepWithStatus]
  split <;>
    exact ⟨rfl, rfl, rfl, rfl, rfl, rfl, rfl, rfl, rfl, rfl, rfl⟩

theorem searchWithBackoff_frame (sub : String) :
    ∀ (script : List Attempt) (st : ScrapeManager) (attempt : Nat),
      (searchWithBackoff sub st script attempt).stx.status = st.status
        ∧ (searchWithBackoff sub st script attempt).stx.cancelRequested = st.cancelRequested
        ∧ (searchWithBackoff sub st script attempt).stx.total_units = st.total_units
        ∧ (searchWithBackoff sub st script attempt).stx.completed_units = st.completed_units
        ∧ (searchWithBackoff sub st script attempt).stx.players = st.players
        ∧ (searchWithBackoff sub st script attempt).stx.subreddits = st.subreddits
        ∧ (searchWithBackoff sub st script attempt).stx.slug_map = st.slug_map
        ∧ (searchWithBackoff sub st script attempt).stx.buffers = st.buffers
        ∧ (searchWithBackoff sub st script attempt).stx.part_counts = st.part_counts
        ∧ (searchWithBackoff sub st script attempt).stx.store = st.store
        ∧ (searchWithBackoff sub st script attempt).stx.jobRoot = st.jobRoot := by
  intro script
  induction script with
  | nil =>
    intro st attempt
    exact ⟨rfl, rfl, rfl, rfl, rfl, rfl, rfl, rfl, rfl, rfl, rfl⟩
  | cons a rest ih =>
    intro st attempt
    rw [searchWithBackoff]
    cases ho : a.outcome with
    | none => exact ⟨rfl, rfl, rfl, rfl, rfl, rfl, rfl, rfl, rfl, rfl, rfl⟩
    | some f =>
      simp only []
      cases hh : handleFailure f attempt sub with
      | skip msg => exact ⟨rfl, rfl, rfl, rfl, rfl, rfl, rfl, rfl, rfl, rfl, rfl⟩
      | raiseNow e => exact ⟨rfl, rfl, rfl, rfl, rfl, rfl, rfl, rfl, rfl, rfl, rfl⟩
      | sleepRetry seconds reason =>
        by_cases hM : MAX_RETRIES ≤ attempt + 1
        · simp only [hM, if_pos]
          exact sleepWithStatus_frame st seconds reason
        · simp only [hM, if_neg, if_false]
          obtain ⟨s1, s2, s3, s4, s5, s6, s7, s8, s9, s10, s11⟩ :=
            sleepWithStatus_frame st seconds reason
          obtain ⟨r1, r2, r3, r4, r5, r6, r7, r8, r9, r10, r11⟩ :=
            ih (sleepWithStatus st seconds reason).1 (attempt + 1)
          exact ⟨r1.trans s1, r2.trans s2, r3.trans s3, r4.trans s4, r5.trans s5,
            r6.trans s6, r7.trans s7, r8.trans s8, r9.trans s9, r10.trans s10, r11.trans s11⟩

theorem writeItems_frame (player : String) :
    ∀ (rows : List RawRow) (st : ScrapeManager) (ctrl : List Bool),
      (writeItems player st rows ctrl).1.total_units = st.total_units
        ∧ (writeItems player st rows ctrl).1.completed_units = st.completed_units
        ∧ (writeItems player st rows ctrl).1.slug_map = st.slug_map := by
  intro rows
  induction rows with
  | nil => intro st ctrl; exact ⟨rfl, rfl, rfl⟩
  | cons r rs ih =>
    intro st ctrl
    rw [writeItems]
    by_cases hc : (checkpoint ctrl).1 = true
    · simp only [hc, if_true]
      exact ⟨rfl, rfl, rfl⟩
    · simp only [hc, if_false]
      cases hw : st.write_row player { r with search_player := player } with
      | none => exact ⟨rfl, rfl, rfl⟩
      | some st1 =>
        obtain ⟨_, _, _, f4, f5, _, _, f8, _⟩ := write_row_frame st st1 player _ hw
        obtain ⟨g1, g2, g3⟩ := ih st1 (checkpoint ctrl).2
        exact ⟨g1.trans f4, g2.trans f5, g3.trans f8⟩

theorem runUnit_spec (player sub : String) (pi : Nat) (acc r : RunAcc)
    (h : runUnit player sub pi acc = r) :
    r.st.total_units = acc.st.total_units
      ∧ r.st.slug_map = acc.st.slug_map
      ∧ ((r.stopped = true ∧ r.st.completed_units = acc.st.completed_units ∧ r.trace = acc.trace)
         ∨ (r.stopped = false ∧ r.st.completed_units = acc.st.completed_units + 1
            ∧ r.trace = acc.trace ++ [r.st])) := by
  rw [runUnit] at h
  simp only [] at h
  split at h
  · subst h
    exact ⟨rfl, rfl, Or.inl ⟨rfl, rfl, rfl⟩⟩
  · split at h
    · subst h
      refine ⟨?_, ?_, Or.inl ⟨rfl, ?_, rfl⟩⟩
      · exact ((writeItems_frame player _ _ _).1).trans
          ((searchWithBackoff_frame sub _ _ _).2.2.1)
      · exact ((writeItems_frame player _ _ _).2.2).trans
          ((searchWithBackoff_frame sub _ _ _).2.2.2.2.2.2.1)
      · exact ((writeItems_frame player _ _ _).2.1).trans
          ((searchWithBackoff_frame sub _ _ _).2.2.2.1)
    · split at h
      · subst h
        refine ⟨?_, ?_, Or.inl ⟨rfl, ?_, rfl⟩⟩
        · exact ((writeItems_frame player _ _ _).1).trans
            ((searchWithBackoff_frame sub _ _ _).2.2.1)
        · exact ((writeItems_frame player _ _ _).2.2).trans
            ((searchWithBackoff_frame sub _ _ _).2.2.2.2.2.2.1)
        · exact ((writeItems_frame player _ _ _).2.1).trans
            ((searchWithBackoff_frame sub _ _ _).2.2.2.1)
      · subst h
        refine ⟨?_, ?_, Or.inr ⟨rfl, ?_, rfl⟩⟩
        · exact ((writeItems_frame player _ _ _).1).trans
            ((searchWithBackoff_frame sub _ _ _).2.2.1)
        · exact ((writeItems_frame player _ _ _).2.2).trans
            ((searchWithBackoff_frame sub _ _ _).2.2.2.2.2.2.1)
        · exact congrArg (fun x => x + 1)
            (((writeItems_frame player _ _ _).2.1).trans
              ((searchWithBackoff_frame sub _ _ _).2.2.2.1))

theorem mark_finished_fields (st : ScrapeManager) :
    st.mark_finished.total_units = st.total_units
      ∧ st.mark_finished.completed_units = st.completed_units
      ∧ st.mark_finished.slug_map = st.slug_map := by
  rw [ScrapeManager.mark_finished]
  split <;> exact ⟨rfl, rfl, rfl⟩

theorem runSubs_spec (player : String) (pi : Nat) :
    ∀ (subs : List String) (acc : RunAcc),
      (runSubs player pi subs acc).st.total_units = acc.st.total_units
        ∧ (runSubs player pi subs acc).st.slug_map = acc.st.slug_map
        ∧ (runSubs player pi subs acc).st.completed_units
            ≤ acc.st.completed_units + subs.length
        ∧ ∀ s ∈ (runSubs player pi subs acc).trace,
            s ∈ acc.trace
              ∨ (s.total_units = acc.st.total_units
                 ∧ s.completed_units ≤ acc.st.completed_units + subs.length) := by
  intro subs
  induction subs with
  | nil =>
    intro acc
    rw [runSubs]
    exact ⟨rfl, rfl, by simp, fun s hs => Or.inl hs⟩
  | cons sub rest ih =>
    intro acc
    rw [runSubs]
    obtain ⟨u1, u2, u3⟩ := runUnit_spec player sub pi acc (runUnit player sub pi acc) rfl
    by_cases hst : (runUnit player sub pi acc).stopped = true
    · rw [if_pos hst]
      rcases u3 with ⟨_, uc, ut⟩ | ⟨hf, _, _⟩
      · refine ⟨u1, u2, ?_, ?_⟩
        · simp only [List.length_cons]
          omega
        · intro s hs
          exact Or.inl (ut ▸ hs)
      · rw [hf] at hst
        cases hst
    · rw [if_neg hst]
      obtain ⟨r1, r2, r3, r4⟩ := ih (runUnit player sub pi acc)
      rcases u3 with ⟨htrue, _, _⟩ | ⟨_, uc, ut⟩
      · exact absurd htrue hst
      · refine ⟨r1.trans u1, r2.trans u2, ?_, ?_⟩
        · rw [uc] at r3
          simp only [List.length_cons]
          omega
        · intro s hs
          rcases r4 s hs with hsin | ⟨hstot, hsc⟩
          · rw [ut] at hsin
            rcases List.mem_append.mp hsin with h1 | h2
            · exact Or.inl h1
            · simp at h2
              subst h2
              refine Or.inr ⟨u1, ?_⟩
              rw [uc]
              simp only [List.length_cons]
              omega
          · refine Or.inr ⟨hstot.trans u1, ?_⟩
            rw [uc] at hsc
            simp only [List.length_cons]
            omega

theorem runPlayers_spec :
    ∀ (players : List String) (pi : Nat) (subs : List String) (acc : RunAcc),
      (runPlayers players pi subs acc).st.total_units = acc.st.total_units
        ∧ (runPlayers players pi subs acc).st.slug_map = acc.st.slug_map
        ∧ (runPlayers players pi subs acc).st.completed_units
            ≤ acc.st.completed_units + players.length * subs.length
        ∧ ∀ s ∈ (runPlayers players pi subs acc).trace,
            s ∈ acc.trace
              ∨ (s.total_units = acc.st.total_units
                 ∧ s.completed_units
                     ≤ acc.st.completed_units + players.length * subs.length) := by
  intro players
  induction players with
  | nil =>
    intro pi subs acc
    rw [runPlayers]
    exact ⟨rfl, rfl, by simp, fun s hs => Or.inl hs⟩
  | cons p ps ih =>
    intro pi subs acc
    rw [runPlayers]
    obtain ⟨u1, u2, u3, u4⟩ := runSubs_spec p pi subs acc
    have hmul : (ps.length + 1) * subs.length = ps.length * subs.length + subs.length :=
      Nat.succ_mul ps.length subs.length
    by_cases hst : (runSubs p pi subs acc).stopped = true
    · rw [if_pos hst]
      refine ⟨u1, u2, ?_, ?_⟩
      · simp only [List.length_cons]
        omega
      · intro s hs
        rcases u4 s hs with h1 | ⟨h2, h3⟩
        · exact Or.inl h1
        · refine Or.inr ⟨h2, ?_⟩
          simp only [List.length_cons]
          omega
    · rw [if_neg hst]
      obtain ⟨r1, r2, r3, r4⟩ := ih (pi + 1) subs (runSubs p pi subs acc)
      refine ⟨r1.trans u1, r2.trans u2, ?_, ?_⟩
      · simp only [List.length_cons]
        omega
      · intro s hs
        rcases r4 s hs with hsin | ⟨hstot, hsc⟩
        · rcases u4 s hsin with h1 | ⟨h2, h3⟩
          · exact Or.inl h1
          · refine Or.inr ⟨h2, ?_⟩
            simp only [List.length_cons]
            omega
        · refine Or.inr ⟨hstot.trans u1, ?_⟩
          simp only [List.length_cons]
          omega

theorem scrape_players_async_spec (st : ScrapeManager) (scripts : List (List Attempt))
    (ctrl : List Bool) :
    (scrape_players_async st scripts ctrl).st.total_units
        = st.players.length * st.subreddits.length
      ∧ (scrape_players_async st scripts ctrl).st.slug_map = st.slug_map
      ∧ (scrape_players_async st scripts ctrl).st.completed_units
          ≤ st.completed_units + st.players.length * st.subreddits.length
      ∧ ∀ s ∈ (scrape_players_async st scripts ctrl).trace,
          s.total_units = st.players.length * st.subreddits.length
            ∧ s.completed_units
                ≤ st.completed_units + st.players.length * st.subreddits.length := by
  rw [scrape_players_async]
  obtain ⟨r1, r2, r3, r4⟩ := runPlayers_spec st.players 0 st.subreddits
    ⟨st.set_total (st.players.length * st.subreddits.length), scripts, ctrl, [], false⟩
  by_cases hst : (runPlayers st.players 0 st.subreddits
      ⟨st.set_total (st.players.length * st.subreddits.length), scripts, ctrl, [], false⟩).stopped
      = true
  · rw [if_pos hst]
    refine ⟨r1, r2, r3, ?_⟩
    intro s hs
    rcases r4 s hs with h1 | h2
    · simp at h1
    · exact h2
  · simp only [hst, if_false]
    obtain ⟨m1, m2, m3⟩ := mark_finished_fields (runPlayers st.players 0 st.subreddits
      ⟨st.set_total (st.players.length * st.subreddits.length), scripts, ctrl, [], false⟩).st
    refine ⟨m1.trans r1, m3.trans r2, ?_, ?_⟩
    · exact m2.trans_le r3
    · intro s hs
      rcases r4 s hs with h1 | h2
      · simp at h1
      · exact h2

theorem lookupA_nil {β : Type} (q : String) : lookupA ([] : List (String × β)) q = none := by
  simp [lookupA, List.find?]

theorem assignSlugs_invariant :
    ∀ (ps : List String) (acc : SlugInit),
      (∀ q s, lookupA acc.slugMap q = some s → s ∈ acc.used) →
      (∀ p1 p2 s, p1 ≠ p2 → lookupA acc.slugMap p1 = some s →
        lookupA acc.slugMap p2 = some s → False) →
      (∀ q s, lookupA acc.slugMap q = some s →
        s = slugify q ∨ ∃ k, 2 ≤ k ∧ s = candSlug (slugify q) k) →
      ((∀ q s, lookupA (assignSlugs ps acc).slugMap q = some s →
          s ∈ (assignSlugs ps acc).used)
        ∧ (∀ p1 p2 s, p1 ≠ p2 → lookupA (assignSlugs ps acc).slugMap p1 = some s →
            lookupA (assignSlugs ps acc).slugMap p2 = some s → False)
        ∧ (∀ q s, lookupA (assignSlugs ps acc).slugMap q = some s →
            s = slugify q ∨ ∃ k, 2 ≤ k ∧ s = candSlug (slugify q) k)) := by
  intro ps
  induction ps with
  | nil =>
    intro acc h1 h2 h3
    exact ⟨h1, h2, h3⟩
  | cons p ps ih =>
    intro acc h1 h2 h3
    rw [assignSlugs]
    apply ih
    · intro q s hqs
      by_cases hq : q = p
      · subst hq
        rw [lookupA_updateA_self] at hqs
        cases hqs
        exact List.mem_cons_self _ _
      · rw [lookupA_updateA_ne _ _ _ _ hq] at hqs
        exact List.mem_cons_of_mem _ (h1 q s hqs)
    · intro p1 p2 s hne hp1 hp2
      by_cases hq1 : p1 = p
      · subst hq1
        rw [lookupA_updateA_self] at hp1
        cases hp1
        rw [lookupA_updateA_ne _ _ _ _ (fun he => hne he.symm)] at hp2
        exact findSlug_not_mem acc.used (slugify p1) (h1 p2 _ hp2)
      · rw [lookupA_updateA_ne _ _ _ _ hq1] at hp1
        by_cases hq2 : p2 = p
        · subst hq2
          rw [lookupA_updateA_self] at hp2
          cases hp2
          exact findSlug_not_mem acc.used (slugify p2) (h1 p1 _ hp1)
        · rw [lookupA_updateA_ne _ _ _ _ hq2] at hp2
          exact h2 p1 p2 s hne hp1 hp2
    · intro q s hqs
      by_cases hq : q = p
      · subst hq
        rw [lookupA_updateA_self] at hqs
        cases hqs
        exact findSlug_shape acc.used (slugify q)
      · rw [lookupA_updateA_ne _ _ _ _ hq] at hqs
        exact h3 q s hqs

theorem flushChunk_empty (st : ScrapeManager) (slug : String)
    (h : lookupA st.buffers slug = some []) : st.flushChunk slug = some st := by
  rw [ScrapeManager.flushChunk, h]

theorem flushChunk_buffers_nonempty (st st2 : ScrapeManager) (slug : String) (b : List OutRow)
    (hb : lookupA st.buffers slug = some b) (hne : b ≠ [])
    (h : st.flushChunk slug = some st2) :
    st2.buffers = updateA st.buffers slug [] := by
  rw [ScrapeManager.flushChunk, hb] at h
  cases b with
  | nil => exact absurd rfl hne
  | cons x xs =>
    split at h
    · cases h
    · simp_all
    · split at h
      · cases h
      · cases h
        rfl

theorem write_row_below (st st2 : ScrapeManager) (player : String) (row : RawRow)
    (hpre : ∀ s b, lookupA st.buffers s = some b → b.length < CHUNK_ROWS)
    (h : st.write_row player row = some st2) :
    ∀ s b, lookupA st2.buffers s = some b → b.length < CHUNK_ROWS := by
  rw [ScrapeManager.write_row] at h
  split at h
  · cases h
  next slug hs =>
    split at h
    · cases h
    next buf hb =>
      simp only [] at h
      split at h
      next hflu =>
        have hne : buf ++ [normalizeRow row] ≠ [] := by simp
        have hbuf2 := flushChunk_buffers_nonempty _ _ slug (buf ++ [normalizeRow row])
          (lookupA_updateA_self st.buffers slug (buf ++ [normalizeRow row])) hne h
        intro s b hsb
        rw [hbuf2] at hsb
        by_cases hq : s = slug
        · subst hq
          rw [lookupA_updateA_self] at hsb
          cases hsb
          simp [CHUNK_ROWS]
        · rw [lookupA_updateA_ne _ _ _ _ hq, lookupA_updateA_ne _ _ _ _ hq] at hsb
          exact hpre s b hsb
      next hflu =>
        cases h
        intro s b hsb
        by_cases hq : s = slug
        · subst hq
          rw [show ({ st with buffers := updateA st.buffers s (buf ++ [normalizeRow row]) }
              : ScrapeManager).buffers = updateA st.buffers s (buf ++ [normalizeRow row]) from rfl,
            lookupA_updateA_self] at hsb
          cases hsb
          omega
        · rw [show ({ st with buffers := updateA st.buffers slug (buf ++ [normalizeRow row]) }
              : ScrapeManager).buffers = updateA st.buffers slug (buf ++ [normalizeRow row])
              from rfl, lookupA_updateA_ne _ _ _ _ hq] at hsb
          exact hpre s b hsb

theorem flushChunk_eq (st : ScrapeManager) (slug : String) (b : List OutRow) (n : Nat)
    (hb : lookupA st.buffers slug = some b) (hne : b ≠ [])
    (hn : lookupA st.part_counts slug = some n) :
    st.flushChunk slug = some (({ st with
      part_counts := updateA st.part_counts slug (n + 1)
      store := uploadLines st.store
        (optStr st.jobRoot ++ slug ++ "/part-" ++ pad5 (n + 1) ++ ".csv")
        (b.map serializeOutRow)
      buffers := updateA st.buffers slug [] }).touch) := by
  rw [ScrapeManager.flushChunk, hb]
  cases b with
  | nil => exact absurd rfl hne
  | cons x xs =>
    simp only [hn]

/-- Iterated `write_row` for one player (the row-for-row feeding done by
the execution loop for one slug). -/
def writeRows : ScrapeManager → String → List RawRow → Option ScrapeManager
  | st, _, [] => some st
  | st, player, r :: rs =>
    match st.write_row player r with
    | none => none
    | some st1 => writeRows st1 player rs

theorem writeRows_fills (player slug : String) :
    ∀ (rows : List RawRow) (st : ScrapeManager) (buf : List OutRow),
      lookupA st.slug_map player = some slug →
      lookupA st.buffers slug = some buf →
      lookupA st.part_counts slug = some 0 →
      buf.length + rows.length = CHUNK_ROWS →
      rows ≠ [] →
      ∃ st2, writeRows st player rows = some st2
        ∧ lookupA st2.buffers slug = some []
        ∧ lookupA st2.part_counts slug = some 1
        ∧ lookupBlob st2.store (optStr st.jobRoot ++ slug ++ "/part-" ++ pad5 1 ++ ".csv")
            = some ((buf ++ rows.map normalizeRow).map serializeOutRow) := by
  intro rows
  induction rows with
  | nil =>
    intro st buf _ _ _ _ hne
    exact absurd rfl hne
  | cons r rs ih =>
    intro st buf hs hb hn hlen _
    have hwr : st.write_row player r =
        (if CHUNK_ROWS ≤ (buf ++ [normalizeRow r]).length
         then ({ st with buffers := updateA st.buffers slug (buf ++ [normalizeRow r]) }
            : ScrapeManager).flushChunk slug
         else some { st with buffers := updateA st.buffers slug (buf ++ [normalizeRow r]) }) := by
      rw [ScrapeManager.write_row, hs]
      simp only []
      rw [hb]
    by_cases hflu : CHUNK_ROWS ≤ (buf ++ [normalizeRow r]).length
    · have hrs : rs = [] := by
        cases rs with
        | nil => rfl
        | cons a as =>
          exfalso
          have h1 : (buf ++ [normalizeRow r]).length = buf.length + 1 := by simp
          have h2 : (r :: a :: as).length = as.length + 2 := by simp
          rw [h1] at hflu
          rw [h2] at hlen
          omega
      subst hrs
      have hb1 : lookupA ({ st with
          buffers := updateA st.buffers slug (buf ++ [normalizeRow r]) }
            : ScrapeManager).buffers slug = some (buf ++ [normalizeRow r]) :=
        lookupA_updateA_self st.buffers slug (buf ++ [normalizeRow r])
      have hn1 : lookupA ({ st with
          buffers := updateA st.buffers slug (buf ++ [normalizeRow r]) }
            : ScrapeManager).part_counts slug = some 0 := hn
      have hfl := flushChunk_eq _ slug (buf ++ [normalizeRow r]) 0 hb1 (by simp) hn1
      have hstep : writeRows st player [r]
          = (match st.write_row player r with
             | none => none
             | some st1 => writeRows st1 player []) := rfl
      exact ⟨_, by rw [hstep, hwr, if_pos hflu, hfl]; rfl,
        lookupA_updateA_self _ _ _, lookupA_updateA_self _ _ _,
        lookupBlob_uploadLines_self _ _ _⟩
    · have hwr2 : st.write_row player r
          = some { st with buffers := updateA st.buffers slug (buf ++ [normalizeRow r]) } := by
        rw [hwr, if_neg hflu]
      have hb1 : lookupA ({ st with
          buffers := updateA st.buffers slug (buf ++ [normalizeRow r]) }
            : ScrapeManager).buffers slug = some (buf ++ [normalizeRow r]) :=
        lookupA_updateA_self st.buffers slug (buf ++ [normalizeRow r])
      have hlen1 : (buf ++ [normalizeRow r]).length + rs.length = CHUNK_ROWS := by
        simp only [List.length_append, List.length_singleton]
        simp only [List.length_cons] at hlen
        omega
      have hrs_ne : rs ≠ [] := by
        intro he
        subst he
        apply hflu
        simp only [List.length_append, List.length_singleton]
        simp only [List.length_cons, List.length_nil] at hlen
        omega
      obtain ⟨st2, hw, h2, h3, h4⟩ := ih
        { st with buffers := updateA st.buffers slug (buf ++ [normalizeRow r]) }
        (buf ++ [normalizeRow r]) hs hb1 hn hlen1 hrs_ne
      refine ⟨st2, ?_, h2, h3, ?_⟩
      · have hstep : writeRows st player (r :: rs)
            = (match st.write_row player r with
               | none => none
               | some st1 => writeRows st1 player rs) := rfl
        rw [hstep, hwr2]
        exact hw
      · rw [h4]
        congr 1
        simp [List.append_assoc]

theorem compose_final_eq_exists (st : ScrapeManager) (slug : String)
    (hex : gcsExists st.store (optStr st.jobRoot ++ slug ++ ".csv") = true) :
    st.compose_final_if_needed slug = some (st, optStr st.jobRoot ++ slug ++ ".csv") := by
  rw [ScrapeManager.compose_final_if_needed]
  simp only []
  rw [if_pos hex]

theorem compose_final_main (st st2 : ScrapeManager) (slug name : String)
    (h : st.compose_final_if_needed slug = some (st2, name)) :
    name = optStr st.jobRoot ++ slug ++ ".csv"
      ∧ st2.jobRoot = st.jobRoot
      ∧ gcsExists st2.store name = true := by
  rw [ScrapeManager.compose_final_if_needed] at h
  simp only [] at h
  split at h
  next hex =>
    cases h
    exact ⟨rfl, rfl, hex⟩
  next hex =>
    split at h
    · cases h
    next st1 hflush =>
      cases h
      exact ⟨rfl, (flushChunk_frame st st1 slug hflush).2.2.2.2.2.2.2.2,
        gcsExists_compose_many_dest _ _ _ _⟩

theorem compose_final_idem (st st2 : ScrapeManager) (slug name : String)
    (h : st.compose_final_if_needed slug = some (st2, name)) :
    st2.compose_final_if_needed slug = some (st2, name) := by
  obtain ⟨hname, hroot, hex⟩ := compose_final_main st st2 slug name h
  have hfb : optStr st2.jobRoot ++ slug ++ ".csv" = name := by rw [hroot, ← hname]
  rw [ScrapeManager.compose_final_if_needed]
  simp only []
  rw [hfb, if_pos hex]

theorem compose_final_empty_buffer (st st2 : ScrapeManager) (slug name : String)
    (hb : lookupA st.buffers slug = some [])
    (h : st.compose_final_if_needed slug = some (st2, name)) :
    st2.part_counts = st.part_counts ∧ st2.buffers = st.buffers := by
  rw [ScrapeManager.compose_final_if_needed] at h
  simp only [] at h
  split at h
  · cases h
    exact ⟨rfl, rfl⟩
  · rw [flushChunk_empty st slug hb] at h
    simp only [] at h
    cases h
    exact ⟨rfl, rfl⟩

/-- C3: starting while `status ∈ {running, paused, cancelling}` rejects
with the busy error and returns the job state unchanged (the guard runs
before any mutation); `start` succeeds exactly from `idle`, `finished`,
`error` and `cancelled`. -/
theorem start_busy_spec (st : ScrapeManager) (p : StartParams) (jobId : String) :
    ((st.status = .running ∨ st.status = .paused ∨ st.status = .cancelling) →
        st.start p jobId = (st, some "A job is already running."))
      ∧ ((st.start p jobId).2 = none ↔
          (st.status = .idle ∨ st.status = .finished ∨ st.status = .error
            ∨ st.status = .cancelled)) := by
  cases hstat : st.status <;>
    simp [ScrapeManager.start, ScrapeManager.is_running, hstat]

/-- Witness for C3: a running job rejects a second `start` unchanged,
and an idle manager accepts one. -/
theorem start_busy_spec_witness :
    ({ initialManager with status := .running } : ScrapeManager).start
        ⟨["A"], ["x"], some 10, "year", "new"⟩ "job-1"
        = ({ initialManager with status := .running }, some "A job is already running.")
      ∧ (initialManager.start ⟨["A"], ["x"], some 10, "year", "new"⟩ "job-1").2 = none :=
  ⟨(start_busy_spec { initialManager with status := .running }
      ⟨["A"], ["x"], some 10, "year", "new"⟩ "job-1").1 (Or.inl rfl),
   (start_busy_spec initialManager ⟨["A"], ["x"], some 10, "year", "new"⟩ "job-1").2.mpr
      (Or.inl rfl)⟩

/-- C9: `cancel` succeeds only from `running` or `paused`, moving to
`cancelling` with the cancel flag set; the loop's next poll observes the
flag and moves to `cancelled`; cancelling while paused reaches
`cancelled` without the status ever re-entering `running` (every
lifecycle call from `cancelling` is rejected unchanged). -/
theorem cancel_spec (st : ScrapeManager) :
    ((st.status = .running ∨ st.status = .paused) →
        (st.cancel).2 = none ∧ (st.cancel).1.status = .cancelling
          ∧ (st.cancel).1.cancelRequested = true)
      ∧ (¬ (st.status = .running ∨ st.status = .paused) →
          st.cancel = (st, some "No running job to cancel."))
      ∧ (∀ st2 : ScrapeManager, st2.cancelRequested = true →
          (st2.pollStep).2 = .cancelledNow ∧ (st2.pollStep).1.status = .cancelled)
      ∧ (st.status = .paused →
          (st.cancel).1.status = .cancelling
            ∧ ((st.cancel).1.pollStep).1.status = .cancelled
            ∧ ((st.cancel).1.pollStep).2 = .cancelledNow
            ∧ ((st.cancel).1.pause).2.isSome = true
            ∧ ((st.cancel).1.pause).1 = (st.cancel).1
            ∧ ((st.cancel).1.resume).2.isSome = true
            ∧ ((st.cancel).1.resume).1 = (st.cancel).1
            ∧ ∀ (p : StartParams) (jobId : String),
                (st.cancel).1.start p jobId
                  = ((st.cancel).1, some "A job is already running.")) := by
  refine ⟨?_, ?_, ?_, ?_⟩
  · intro h
    rw [ScrapeManager.cancel, if_pos h]
    exact ⟨rfl, rfl, rfl⟩
  · intro h
    rw [ScrapeManager.cancel, if_neg h]
  · intro st2 hc
    rw [ScrapeManager.pollStep, if_pos hc]
    exact ⟨rfl, rfl⟩
  · intro hp
    have hcan : st.cancel = (({ st with
        cancelRequested := true
        status := .cancelling
        message := "Cancelling..." }).touch, none) := by
      rw [ScrapeManager.cancel, if_pos (Or.inr hp)]
    rw [hcan]
    refine ⟨rfl, ?_, ?_, ?_, ?_, ?_, ?_, ?_⟩
    · simp [ScrapeManager.pollStep, ScrapeManager.touch]
    · simp [ScrapeManager.pollStep, ScrapeManager.touch]
    · simp [ScrapeManager.pause, ScrapeManager.touch]
    · simp [ScrapeManager.pause, ScrapeManager.touch]
    · simp [ScrapeManager.resume, ScrapeManager.touch]
    · simp [ScrapeManager.resume, ScrapeManager.touch]
    · intro p jobId
      simp [ScrapeManager.start, ScrapeManager.is_running, ScrapeManager.touch]

/-- Witness for C9: cancelling a concrete paused job reaches `cancelled`
at the next poll without re-entering `running`. -/
theorem cancel_spec_witness :
    ((({ initialManager with status := .paused } : ScrapeManager).cancel).1.status = .cancelling
      ∧ ((({ initialManager with status := .paused }
          : ScrapeManager).cancel).1.pollStep).1.status = .cancelled)
      ∧ (({ initialManager with status := .paused } : ScrapeManager).cancel).2 = none :=
  ⟨⟨((cancel_spec { initialManager with status := .paused }).2.2.2 rfl).1,
    ((cancel_spec { initialManager with status := .paused }).2.2.2 rfl).2.1⟩,
   ((cancel_spec { initialManager with status := .paused }).1 (Or.inr rfl)).1⟩

/-- C7: `compose_final_if_needed` is idempotent: when the final artifact
already exists it is returned with the state untouched (no flush, no
compose), and a second call after any successful call returns the same
artifact name with the state unchanged. -/
theorem finalize_idempotent_spec (st : ScrapeManager) (slug : String) :
    (gcsExists st.store (optStr st.jobRoot ++ slug ++ ".csv") = true →
        st.compose_final_if_needed slug = some (st, optStr st.jobRoot ++ slug ++ ".csv"))
      ∧ ∀ (st2 : ScrapeManager) (name : String),
          st.compose_final_if_needed slug = some (st2, name) →
          st2.compose_final_if_needed slug = some (st2, name) :=
  ⟨fun hex => compose_final_eq_exists st slug hex,
   fun st2 name h => compose_final_idem st st2 slug name h⟩

/-- Concrete fixture for the C7 witness: a job whose final artifact for
slug `a` already exists. -/
def c7State : ScrapeManager :=
  { initialManager with
      jobRoot := some "root/"
      store := [("root/a.csv", ["x"])] }

/-- Witness for C7 at a concrete job state: finalize returns the
existing artifact with the state unchanged. -/
theorem finalize_idempotent_spec_witness :
    c7State.compose_final_if_needed "a"
      = some (c7State, optStr c7State.jobRoot ++ "a" ++ ".csv") :=
  (finalize_idempotent_spec c7State "a").1 (by decide)

/-- C10: flushing a slug with an empty buffer is a no-op (no part
object, no counter change, state unchanged), and finalize on a slug
with no residual rows never creates a trailing part. -/
theorem flush_empty_spec (st : ScrapeManager) (slug : String)
    (hb : lookupA st.buffers slug = some []) :
    st.flushChunk slug = some st
      ∧ ∀ (st2 : ScrapeManager) (name : String),
          st.compose_final_if_needed slug = some (st2, name) →
          st2.part_counts = st.part_counts ∧ st2.buffers = st.buffers :=
  ⟨flushChunk_empty st slug hb,
   fun st2 name h => compose_final_empty_buffer st st2 slug name hb h⟩

/-- Concrete fixture for the C10 witness: a job whose buffer for slug
`a` is empty. -/
def c10State : ScrapeManager :=
  { initialManager with
      jobRoot := some "root/"
      buffers := [("a", [])]
      part_counts := [("a", 0)] }

/-- Witness for C10 at a concrete state with an empty buffer. -/
theorem flush_empty_spec_witness :
    c10State.flushChunk "a" = some c10State :=
  (flush_empty_spec c10State "a" (by decide)).1

/-- Extract the post-`start` state on success. -/
theorem start_ok_state (st : ScrapeManager) (p : StartParams) (jobId : String)
    (st1 : ScrapeManager) (h : st.start p jobId = (st1, none)) :
    st1 = { st with
      status := .running
      message := "Scrape started"
      cancelRequested := false
      players := p.players
      subreddits := dedupKeepOrder []
        (if p.subreddits.isEmpty then ["nbadiscussion"] else p.subreddits)
      search_limit := p.search_limit
      time_filter := p.time_filter
      sort := p.sort
      total_units := p.players.length * (dedupKeepOrder []
        (if p.subreddits.isEmpty then ["nbadiscussion"] else p.subreddits)).length
      completed_units := 0
      current_player_index := 0
      updatedCount := st.updatedCount + 1
      job_id := some jobId
      jobRoot := some (RESULTS_ROOT ++ "/" ++ jobId ++ "/")
      slug_map := (assignSlugs p.players ⟨[], [], [], []⟩).slugMap
      buffers := (assignSlugs p.players ⟨[], [], [], []⟩).buffers
      part_counts := (assignSlugs p.players ⟨[], [], [], []⟩).partCounts
      store := writeHeaders st.store (RESULTS_ROOT ++ "/" ++ jobId ++ "/")
        (assignSlugs p.players ⟨[], [], [], []⟩).used } := by
  rw [ScrapeManager.start] at h
  split at h
  · simp at h
  · simp only [Prod.mk.injEq] at h
    exact h.1.symm

/-- C5: the player-to-slug mapping built by `start` is injective
(distinct players never share a slug), collisions are resolved by the
`base`, `base-2`, `base-3`, ... suffix scheme, and the mapping is never
mutated afterwards: `write_row` and the whole execution loop leave
`slug_map` unchanged. -/
theorem slug_map_spec (st : ScrapeManager) (p : StartParams) (jobId : String)
    (st1 : ScrapeManager) (h : st.start p jobId = (st1, none)) :
    (∀ p1 p2 s, p1 ≠ p2 → lookupA st1.slug_map p1 = some s →
        lookupA st1.slug_map p2 = some s → False)
      ∧ (∀ q s, lookupA st1.slug_map q = some s →
          s = slugify q ∨ ∃ k, 2 ≤ k ∧ s = slugify q ++ "-" ++ Nat.repr k)
      ∧ (∀ (st0 st2 : ScrapeManager) (player : String) (row : RawRow),
          st0.write_row player row = some st2 → st2.slug_map = st0.slug_map)
      ∧ (∀ (st0 : ScrapeManager) (scripts : List (List Attempt)) (ctrl : List Bool),
          (scrape_players_async st0 scripts ctrl).st.slug_map = st0.slug_map) := by
  have hst1 := start_ok_state st p jobId st1 h
  obtain ⟨hi1, hi2, hi3⟩ := assignSlugs_invariant p.players ⟨[], [], [], []⟩
    (by intro q s hq; rw [lookupA_nil] at hq; cases hq)
    (by intro p1 p2 s _ hq; rw [lookupA_nil] at hq; cases hq)
    (by intro q s hq; rw [lookupA_nil] at hq; cases hq)
  refine ⟨?_, ?_, ?_, ?_⟩
  · intro p1 p2 s hne h1 h2
    rw [hst1] at h1 h2
    exact hi2 p1 p2 s hne h1 h2
  · intro q s hq
    rw [hst1] at hq
    exact hi3 q s hq
  · intro st0 st2 player row hw
    exact (write_row_frame st0 st2 player row hw).2.2.2.2.2.2.2.1
  · intro st0 scripts ctrl
    exact (scrape_players_async_spec st0 scripts ctrl).2.1

/-- Witness for C5: a concrete start, then the loop leaves the slug map
unchanged. -/
theorem slug_map_spec_witness :
    (scrape_players_async initialManager [] []).st.slug_map = initialManager.slug_map :=
  (slug_map_spec initialManager ⟨["A", "A b"], ["x"], some 10, "year", "new"⟩ "job-1"
    (initialManager.start ⟨["A", "A b"], ["x"], some 10, "year", "new"⟩ "job-1").1
    (by decide)).2.2.2 initialManager [] []

/-- C6: `start` sets `total_units` to the number of players times the
number of deduplicated (order-preserving, defaulted) subreddits, and at
every point of the execution loop `completed_units` never exceeds
`total_units` (for the final state and for every post-unit snapshot). -/
theorem total_units_spec (st : ScrapeManager) (p : StartParams) (jobId : String)
    (st1 : ScrapeManager) (h : st.start p jobId = (st1, none)) :
    st1.total_units = p.players.length * (dedupKeepOrder []
        (if p.subreddits.isEmpty then ["nbadiscussion"] else p.subreddits)).length
      ∧ ∀ (scripts : List (List Attempt)) (ctrl : List Bool),
          ((scrape_players_async st1 scripts ctrl).st.completed_units
              ≤ (scrape_players_async st1 scripts ctrl).st.total_units)
            ∧ ∀ s ∈ (scrape_players_async st1 scripts ctrl).trace,
                s.completed_units ≤ s.total_units := by
  have hst1 := start_ok_state st p jobId st1 h
  have hplayers : st1.players = p.players := by rw [hst1]
  have hsubs : st1.subreddits = dedupKeepOrder []
      (if p.subreddits.isEmpty then ["nbadiscussion"] else p.subreddits) := by rw [hst1]
  have hcomp : st1.completed_units = 0 := by rw [hst1]
  have htot : st1.total_units = p.players.length * (dedupKeepOrder []
      (if p.subreddits.isEmpty then ["nbadiscussion"] else p.subreddits)).length := by rw [hst1]
  refine ⟨htot, ?_⟩
  intro scripts ctrl
  obtain ⟨r1, _, r3, r4⟩ := scrape_players_async_spec st1 scripts ctrl
  rw [hplayers, hsubs] at r1
  rw [hplayers, hsubs, hcomp] at r3
  constructor
  · rw [r1]
    omega
  · intro s hs
    obtain ⟨h1, h2⟩ := r4 s hs
    rw [hplayers, hsubs] at h1
    rw [hplayers, hsubs, hcomp] at h2
    rw [h1]
    omega

/-- Witness for C6 at a concrete start with two players and one
subreddit. -/
theorem total_units_spec_witness :
    ((initialManager.start ⟨["A", "B"], ["x"], some 10, "year", "new"⟩ "job-1").1).total_units
      = (["A", "B"] : List String).length * (dedupKeepOrder []
          (if (["x"] : List String).isEmpty then ["nbadiscussion"] else ["x"])).length :=
  (total_units_spec initialManager ⟨["A", "B"], ["x"], some 10, "year", "new"⟩ "job-1"
    (initialManager.start ⟨["A", "B"], ["x"], some 10, "year", "new"⟩ "job-1").1
    (by decide)).1

/-- C8: an access-denied / not-found / legally-restricted response
(HTTP 403/404/451) abandons only the current unit: the search returns
immediately with no sleeps, no retry and no further upstream tries, and
the loop still counts the abandoned unit in `completed_units` and
continues with the following units (shown on a concrete two-unit run
where the first unit is denied and the second yields one row). -/
theorem skip_unit_spec :
    (∀ (sub : String) (st : ScrapeManager) (yielded : List RawRow) (j : ℚ)
        (rest : List Attempt) (attempt : Nat) (code : Nat),
        code = 403 ∨ code = 404 ∨ code = 451 →
        (searchWithBackoff sub st
            (⟨yielded, some (.httpResp (some code) j)⟩ :: rest) attempt).items = yielded
          ∧ (searchWithBackoff sub st
              (⟨yielded, some (.httpResp (some code) j)⟩ :: rest) attempt).sleeps = []
          ∧ (searchWithBackoff sub st
              (⟨yielded, some (.httpResp (some code) j)⟩ :: rest) attempt).exit = .skippedUnit
          ∧ (searchWithBackoff sub st
              (⟨yielded, some (.httpResp (some code) j)⟩ :: rest) attempt).attempts = attempt)
      ∧ ((scrape_players_async
            ((initialManager.start ⟨["A", "B"], ["x"], some 10, "year", "new"⟩ "job-1").1)
            [[⟨[], some (.httpResp (some 403) 0)⟩],
             [⟨[⟨"", "", "", none, none, "", "", "", "", "", [], ""⟩], none⟩]]
            []).st.status = .finished
          ∧ (scrape_players_async
              ((initialManager.start ⟨["A", "B"], ["x"], some 10, "year", "new"⟩ "job-1").1)
              [[⟨[], some (.httpResp (some 403) 0)⟩],
               [⟨[⟨"", "", "", none, none, "", "", "", "", "", [], ""⟩], none⟩]]
              []).st.completed_units = 2
          ∧ (scrape_players_async
              ((initialManager.start ⟨["A", "B"], ["x"], some 10, "year", "new"⟩ "job-1").1)
              [[⟨[], some (.httpResp (some 403) 0)⟩],
               [⟨[⟨"", "", "", none, none, "", "", "", "", "", [], ""⟩], none⟩]]
              []).st.total_units = 2
          ∧ lookupA (scrape_players_async
              ((initialManager.start ⟨["A", "B"], ["x"], some 10, "year", "new"⟩ "job-1").1)
              [[⟨[], some (.httpResp (some 403) 0)⟩],
               [⟨[⟨"", "", "", none, none, "", "", "", "", "", [], ""⟩], none⟩]]
              []).st.buffers "b"
              = some [normalizeRow { (⟨"", "", "", none, none, "", "", "", "", "", [], ""⟩
                  : RawRow) with search_player := "B" }]
          ∧ lookupA (scrape_players_async
              ((initialManager.start ⟨["A", "B"], ["x"], some 10, "year", "new"⟩ "job-1").1)
              [[⟨[], some (.httpResp (some 403) 0)⟩],
               [⟨[⟨"", "", "", none, none, "", "", "", "", "", [], ""⟩], none⟩]]
              []).st.buffers "a" = some []) := by
  constructor
  · intro sub st yielded j rest attempt code hcode
    rcases hcode with h | h | h <;> subst h <;> exact ⟨rfl, rfl, rfl, rfl⟩
  · exact ⟨by decide, by decide, by decide, by decide, by decide⟩

/-- Witness for C8: a 403 response at a concrete input exits with
`skippedUnit` and performs no retry sleep. -/
theorem skip_unit_spec_witness :
    (searchWithBackoff "x" initialManager
        (⟨[], some (.httpResp (some 403) 0)⟩ :: []) 0).exit = .skippedUnit
      ∧ (searchWithBackoff "x" initialManager
          (⟨[], some (.httpResp (some 403) 0)⟩ :: []) 0).sleeps = [] :=
  ⟨(skip_unit_spec.1 "x" initialManager [] 0 [] 0 403 (Or.inl rfl)).2.2.1,
   (skip_unit_spec.1 "x" initialManager [] 0 [] 0 403 (Or.inl rfl)).2.1⟩

/-- Concrete fixtures for the C2 witness. -/
def c2State : ScrapeManager :=
  (initialManager.start ⟨["A"], ["x"], some 10, "year", "new"⟩ "job-1").1

def demoRow : RawRow :=
  ⟨"sub", "id", "t", none, some "u", "txt", "1", "0.5", "0", "ts", ["c"], "A"⟩

/-- C2: after any successful `write_row` every buffer stays strictly
below `CHUNK_ROWS` (a write reaching the threshold flushes at once),
and writing exactly `CHUNK_ROWS` rows into a fresh slug produces
exactly one part object, `part-00001`, holding exactly those rows, an
empty buffer and a part counter of 1. -/
theorem chunked_writer_spec :
    (∀ (st st2 : ScrapeManager) (player : String) (row : RawRow),
        (∀ s b, lookupA st.buffers s = some b → b.length < CHUNK_ROWS) →
        st.write_row player row = some st2 →
        ∀ s b, lookupA st2.buffers s = some b → b.length < CHUNK_ROWS)
      ∧ ∀ (st : ScrapeManager) (player slug : String) (rows : List RawRow),
          lookupA st.slug_map player = some slug →
          lookupA st.buffers slug = some [] →
          lookupA st.part_counts slug = some 0 →
          rows.length = CHUNK_ROWS →
          ∃ st2, writeRows st player rows = some st2
            ∧ lookupA st2.buffers slug = some []
            ∧ lookupA st2.part_counts slug = some 1
            ∧ lookupBlob st2.store (optStr st.jobRoot ++ slug ++ "/part-" ++ pad5 1 ++ ".csv")
                = some ((rows.map normalizeRow).map serializeOutRow) := by
  constructor
  · exact fun st st2 player row hpre h => write_row_below st st2 player row hpre h
  · intro st player slug rows hs hb hn hlen
    have hne : rows ≠ [] := by
      intro he
      subst he
      simp [CHUNK_ROWS] at hlen
    have := writeRows_fills player slug rows st [] hs hb hn (by simpa using hlen) hne
    simpa using this

/-- Witness for C2: feeding exactly `CHUNK_ROWS` concrete rows to a
freshly started job yields one full part and an empty buffer. -/
theorem chunked_writer_spec_witness :
    ∃ st2, writeRows c2State "A" (List.replicate CHUNK_ROWS demoRow) = some st2
      ∧ lookupA st2.buffers "a" = some []
      ∧ lookupA st2.part_counts "a" = some 1
      ∧ lookupBlob st2.store (optStr c2State.jobRoot ++ "a" ++ "/part-" ++ pad5 1 ++ ".csv")
          = some (((List.replicate CHUNK_ROWS demoRow).map normalizeRow).map serializeOutRow) :=
  chunked_writer_spec.2 c2State "A" "a" (List.replicate CHUNK_ROWS demoRow)
    (by decide) (by decide) (by decide) (by simp)

theorem sleepClamp_le (s : ℚ) : sleepClamp s ≤ MAX_BACKOFF_SECONDS := by
  rw [sleepClamp]
  apply max_le
  · rw [MAX_BACKOFF_SECONDS]
    norm_num
  · exact min_le_right _ _

theorem searchWithBackoff_sleeps_le (sub : String) :
    ∀ (script : List Attempt) (st : ScrapeManager) (attempt : Nat),
      ∀ d ∈ (searchWithBackoff sub st script attempt).sleeps, d ≤ MAX_BACKOFF_SECONDS := by
  intro script
  induction script with
  | nil =>
    intro st attempt d hd
    simp [searchWithBackoff] at hd
  | cons a rest ih =>
    intro st attempt d hd
    rw [searchWithBackoff] at hd
    cases ho : a.outcome with
    | none =>
      rw [ho] at hd
      simp at hd
    | some f =>
      rw [ho] at hd
      simp only [] at hd
      cases hh : handleFailure f attempt sub with
      | skip msg =>
        rw [hh] at hd
        simp at hd
      | raiseNow e =>
        rw [hh] at hd
        simp at hd
      | sleepRetry seconds reason =>
        rw [hh] at hd
        simp only [] at hd
        by_cases hM : MAX_RETRIES ≤ attempt + 1
        · rw [if_pos hM] at hd
          simp at hd
          rw [hd]
          exact sleepClamp_le seconds
        · rw [if_neg hM] at hd
          simp at hd
          rcases hd with hd | hd
          · rw [hd]
            exact sleepClamp_le seconds
          · exact ih _ (attempt + 1) d hd

theorem searchWithBackoff_attempts_le (sub : String) :
    ∀ (script : List Attempt) (st : ScrapeManager) (attempt : Nat),
      attempt < MAX_RETRIES →
      (searchWithBackoff sub st script attempt).attempts ≤ MAX_RETRIES := by
  intro script
  induction script with
  | nil =>
    intro st attempt hA
    rw [searchWithBackoff]
    exact Nat.le_of_lt hA
  | cons a rest ih =>
    intro st attempt hA
    rw [searchWithBackoff]
    cases ho : a.outcome with
    | none => exact Nat.le_of_lt hA
    | some f =>
      simp only []
      cases hh : handleFailure f attempt sub with
      | skip msg => exact Nat.le_of_lt hA
      | raiseNow e => exact Nat.le_of_lt hA
      | sleepRetry seconds reason =>
        simp only []
        by_cases hM : MAX_RETRIES ≤ attempt + 1
        · rw [if_pos hM]
          simp only []
          omega
        · rw [if_neg hM]
          simp only []
          exact ih _ (attempt + 1) (by omega)

/-- C4 (code bug): every backoff sleep is clamped to
`MAX_BACKOFF_SECONDS` and the attempt counter never exceeds
`MAX_RETRIES`, but when the maximum is exceeded the code does NOT
re-raise the last upstream failure: the bare `raise` after the attempt
check sits outside every except block, so a
RuntimeError("No active exception to re-raise") escalates instead
(evaluated on a script of `MAX_RETRIES` consecutive network failures,
where the claim would expect the network failure to be re-raised). -/
theorem backoff_spec :
    (∀ (sub : String) (st : ScrapeManager) (script : List Attempt) (attempt : Nat),
        ∀ d ∈ (searchWithBackoff sub st script attempt).sleeps, d ≤ MAX_BACKOFF_SECONDS)
      ∧ (∀ (sub : String) (st : ScrapeManager) (script : List Attempt),
          (searchWithBackoff sub st script 0).attempts ≤ MAX_RETRIES)
      ∧ (searchWithBackoff "x" initialManager
            (List.replicate MAX_RETRIES ⟨[], some (.network 0)⟩) 0).exit
          = .raised .noActiveException
      ∧ SearchExit.raised .noActiveException
          ≠ SearchExit.raised (.fromUpstream (.network 0)) := by
  refine ⟨?_, ?_, ?_, ?_⟩
  · exact fun sub st script attempt => searchWithBackoff_sleeps_le sub script st attempt
  · exact fun sub st script =>
      searchWithBackoff_attempts_le sub script st 0 (by rw [MAX_RETRIES]; omega)
  · rfl
  · decide

/-- Witness for C4 at a concrete script: the single sleep of a one-shot
network failure is within the cap. -/
theorem backoff_spec_witness :
    ∀ d ∈ (searchWithBackoff "x" initialManager [⟨[], some (.network 0)⟩] 0).sleeps,
      d ≤ MAX_BACKOFF_SECONDS :=
  backoff_spec.1 "x" initialManager [⟨[], some (.network 0)⟩] 0

/-- Witness for C1: a header plus 65 parts (66 sources, forcing the
staged path) on a concrete store, with a disjoint temporary prefix. -/
theorem compose_many_correct_witness :
    contentOf (compose_many [] ("header" :: (List.range 65).map
        (fun i => "part" ++ Nat.repr i)) "out.csv" "tmp").1 "out.csv"
      = (("header" :: (List.range 65).map (fun i => "part" ++ Nat.repr i)).map
          (contentOf [])).flatten
      ∧ ∀ call ∈ (compose_many [] ("header" :: (List.range 65).map
          (fun i => "part" ++ Nat.repr i)) "out.csv" "tmp").2, call.length ≤ 32 :=
  compose_many_correct [] ("header" :: (List.range 65).map (fun i => "part" ++ Nat.repr i))
    "out.csv" "tmp" (by decide) (by decide)

end RedditScraper
